import Mathlib

/-!
Verification of the ecommerce-ml backend services.

This file gives a shallow embedding, over `ℚ` and Lean lists, of the two
algorithmic services of the repository:

* `src/backend/app/services/recommendation_service.py` — collaborative,
  content-based and hybrid recommenders plus metadata enrichment, and
* `src/backend/app/services/demand_service.py` — the demand aggregator's
  trend classification and the iterative forecaster `generate_forecast`.

Python floats are modelled as rationals; external library calls
(`knn_model.kneighbors`, `cosine_similarity`, `np.sqrt` inside `np.std`,
`forecast_model.predict`) are modelled as explicit function parameters.
Python dicts keyed by strings are modelled as association lists that keep
insertion order, matching CPython dict semantics.
-/

/-- Truthiness of a Python value that is either `None` or a string:
`None` and the empty string are falsy. -/
def truthyS : Option String → Bool
  | Option.none => false
  | some s => !s.isEmpty

/-- Python `a or b` for `None`-or-string values: returns `a` when truthy,
else `b` (even when `b` is falsy). -/
def pyOrS (a b : Option String) : Option String :=
  if truthyS a then a else b

/-- Python 3 `round` to an integer: round half to even (banker's rounding). -/
def pyRound (q : ℚ) : ℤ :=
  if q - ⌊q⌋ < 1/2 then ⌊q⌋
  else if 1/2 < q - ⌊q⌋ then ⌊q⌋ + 1
  else if ⌊q⌋ % 2 = 0 then ⌊q⌋ else ⌊q⌋ + 1

/-- Python `round(q, 2)`. -/
def round2 (q : ℚ) : ℚ := (pyRound (q * 100) : ℚ) / 100

/-- Python `round(q, 3)`. -/
def round3 (q : ℚ) : ℚ := (pyRound (q * 1000) : ℚ) / 1000

/-- A Python value as seen by `_parse_price`: `None`, a numeric, a string,
or a value of any other type. -/
inductive PyVal where
  | none
  | int (n : ℤ)
  | float (q : ℚ)
  | str (s : String)
  | other
deriving DecidableEq

/-- Digits of a `List Char` of decimal digit characters, most significant first. -/
def digitsToNat (cs : List Char) : ℕ :=
  cs.foldl (fun a c => a * 10 + (c.toNat - 48)) 0

/-- Parse the exponent part of a Python float literal (after `e`/`E`):
an optional sign followed by at least one digit. -/
def parseExp : List Char → Option ℤ
  | '+' :: ds => if !ds.isEmpty && ds.all (·.isDigit) then some (digitsToNat ds) else Option.none
  | '-' :: ds => if !ds.isEmpty && ds.all (·.isDigit) then some (-(digitsToNat ds : ℤ)) else Option.none
  | ds => if !ds.isEmpty && ds.all (·.isDigit) then some (digitsToNat ds) else Option.none

/-- Character-level scan of an unsigned Python float body
`digits [. digits] [(e|E) exp]`: integer-part value, fraction-part value,
fraction length, and exponent (0 when there is no exponent marker);
`Option.none` when the mantissa has no digit or trailing characters remain.
(`inf`, `nan` and digit underscores, which CPython also accepts, are not
modelled.) -/
def parseParts (cs : List Char) : Option (ℕ × ℕ × ℕ × ℤ) :=
  let ip := cs.takeWhile (·.isDigit)
  let r1 := cs.dropWhile (·.isDigit)
  let fp := match r1 with
    | '.' :: t => t.takeWhile (·.isDigit)
    | _ => []
  let r2 := match r1 with
    | '.' :: t => t.dropWhile (·.isDigit)
    | _ => r1
  if ip.isEmpty && fp.isEmpty then Option.none
  else
    match r2 with
    | [] => some (digitsToNat ip, digitsToNat fp, fp.length, 0)
    | 'e' :: t => (parseExp t).map (fun e => (digitsToNat ip, digitsToNat fp, fp.length, e))
    | 'E' :: t => (parseExp t).map (fun e => (digitsToNat ip, digitsToNat fp, fp.length, e))
    | _ => Option.none

/-- The rational value of a scanned float body:
`(intpart + fracpart / 10^fraclen) * 10^exp`. -/
def partsVal (p : ℕ × ℕ × ℕ × ℤ) : ℚ :=
  ((p.1 : ℚ) + (p.2.1 : ℚ) / 10 ^ p.2.2.1) * 10 ^ p.2.2.2

/-- Parse an unsigned Python float body as a rational. -/
def parseBody (cs : List Char) : Option ℚ :=
  (parseParts cs).map partsVal

/-- Python `float(s)` on a stripped string, as a partial decimal parser. -/
def pyFloat : List Char → Option ℚ
  | '+' :: t => parseBody t
  | '-' :: t => (parseBody t).map Neg.neg
  | t => parseBody t

/-- Python `str.strip()`: remove leading and trailing whitespace. -/
def pyStrip (cs : List Char) : List Char :=
  ((cs.dropWhile Char.isWhitespace).reverse.dropWhile Char.isWhitespace).reverse

/-- Embedding of `_parse_price` (recommendation_service.py lines 18–36).
`price_value.replace('$','').replace(',','')` removes every occurrence of
the single characters `$` and `,`, modelled by a character filter. -/
def parse_price : PyVal → Option ℚ
  | PyVal.none => Option.none
  | PyVal.int n => some (n : ℚ)
  | PyVal.float q => some q
  | PyVal.str s =>
      let cleaned := pyStrip (s.data.filter (fun c => c != '$' && c != ','))
      if cleaned.isEmpty then Option.none else pyFloat cleaned
  | PyVal.other => Option.none

/-- An entry of a metadata `imageURLHighRes`/`imageURL` list: a string or a
value of another type. -/
inductive PyStr where
  | str (s : String)
  | other
deriving DecidableEq

/-- An entry of a metadata `images` list: a nested dict with `hi_res`,
`large`, `thumb` keys, a bare string, or a value of another type. -/
inductive ImgEntry where
  | dict (hi_res large thumb : Option String)
  | str (s : String)
  | other
deriving DecidableEq

/-- A metadata `description` field value: a list of strings or a string. -/
inductive DescVal where
  | list (l : List String)
  | str (s : String)
deriving DecidableEq

/-- One raw product record of the metadata catalog (heterogeneous external
JSON schema).  `Option.none` stands for a missing or `None` field, which the
code treats identically everywhere it reads these fields. -/
structure MetaRecord where
  title : Option String := Option.none
  imageURLHighRes : Option (List PyStr) := Option.none
  imageURL : Option (List PyStr) := Option.none
  images : Option (List ImgEntry) := Option.none
  description : Option DescVal := Option.none
  features : Option (List String) := Option.none
  price : PyVal := PyVal.none
  average_rating : Option ℚ := Option.none
  rating_number : Option ℤ := Option.none
  store : Option String := Option.none
  categories : Option (List String) := Option.none
deriving DecidableEq

/-- Image resolution of `get_product_details` (lines 178–205): try
`imageURLHighRes[0]`, then `imageURL[0]`, then `images[0]` (dict
`hi_res or large or thumb`, or bare string), keeping the previous value
whenever a stage does not assign. -/
def resolveImage (d : MetaRecord) : Option String :=
  let i1 : Option String :=
    match d.imageURLHighRes with
    | some (e :: _) => match e with | PyStr.str s => some s | PyStr.other => Option.none
    | _ => Option.none
  let i2 : Option String :=
    if truthyS i1 then i1
    else
      match d.imageURL with
      | some (e :: _) => match e with | PyStr.str s => some s | PyStr.other => Option.none
      | _ => i1
  if truthyS i2 then i2
  else
    match d.images with
    | some (e :: _) =>
        match e with
        | ImgEntry.dict hi lg th => pyOrS (pyOrS hi lg) th
        | ImgEntry.str s => some s
        | ImgEntry.other => i2
    | _ => i2

/-- Description extraction of `get_product_details` (lines 207–222):
`description` (list joined on first two entries, or string), `features[0]`
fallback, truncation to 200 characters with an ellipsis marker. -/
def resolveDescription (d : MetaRecord) : String :=
  let d1 : String :=
    match d.description with
    | some (DescVal.list l) => if l.isEmpty then "" else String.intercalate " " (l.take 2)
    | some (DescVal.str s) => s
    | Option.none => ""
  let d2 : String :=
    if d1.isEmpty then
      match d.features with
      | some (f :: _) => f
      | _ => d1
    else d1
  if 200 < d2.length then d2.take 197 ++ "..." else d2

/-- Normalized product attributes returned by `get_product_details`. -/
structure Details where
  asin : String
  title : String
  description : String
  image_url : Option String
  price : Option ℚ
  rating : Option ℚ
  rating_count : Option ℤ
  store : Option String
  categories : List String
deriving DecidableEq

/-- Embedding of `RecommendationService.get_product_details` (lines 160–240);
the metadata cache is an association list keyed by ASIN. -/
def get_product_details (metadata : List (String × MetaRecord)) (asin : String) : Details :=
  match metadata.lookup asin with
  | Option.none =>
      { asin := asin, title := "Product " ++ asin, description := "",
        image_url := Option.none, price := Option.none, rating := Option.none,
        rating_count := Option.none, store := Option.none, categories := [] }
  | some d =>
      { asin := asin
        title := d.title.getD ("Product " ++ asin)
        description := resolveDescription d
        image_url := resolveImage d
        price := parse_price d.price
        rating := d.average_rating
        rating_count := d.rating_number
        store := d.store
        categories :=
          match d.categories with
          | some l => if l.isEmpty then [] else l.take 3
          | Option.none => [] }

/-- A raw recommendation candidate before enrichment. -/
structure RawRec where
  asin : String
  similarity : ℚ
  method : String
deriving DecidableEq

/-- An enriched recommendation as returned by the collaborative and content
recommenders. -/
structure EnrichedRec where
  asin : String
  similarity : ℚ
  method : String
  title : String
  description : String
  image_url : Option String
  price : Option ℚ
  rating : Option ℚ
  rating_count : Option ℤ
  store : Option String
  categories : List String
deriving DecidableEq

/-- Embedding of `_enrich_recommendations` (lines 269–292): the loop keeps
exactly the candidates whose resolved details carry a truthy `image_url`
and appends the merged record for each, i.e. a filter followed by a map. -/
def enrich_recommendations (metadata : List (String × MetaRecord)) (recs : List RawRec) :
    List EnrichedRec :=
  (recs.filter (fun r => truthyS (get_product_details metadata r.asin).image_url)).map
    (fun r =>
      let d := get_product_details metadata r.asin
      { asin := r.asin, similarity := r.similarity, method := r.method,
        title := d.title, description := d.description, image_url := d.image_url,
        price := d.price, rating := d.rating, rating_count := d.rating_count,
        store := d.store, categories := d.categories })

/-- The in-memory state of `RecommendationService` after `_load_models`.
The nearest-neighbor query and the cosine-similarity row computation are
external artifacts (`knn_model.kneighbors`, sklearn `cosine_similarity`)
and appear as function-valued fields: `kneighbors rowIdx k` returns the
`k` (distance, index) pairs for the query row, and `contentSims rowIdx`
returns the flattened similarity row against the whole tfidf matrix. -/
structure RecService where
  hasKnn : Bool
  hasItemUser : Bool
  hasTfidf : Bool
  hasMappings : Bool
  product_to_idx : List (String × ℕ)
  idx_to_product : List (ℕ × String)
  cb_product_to_idx : List (String × ℕ)
  cb_idx_to_product : List (ℕ × String)
  kneighbors : ℕ → ℕ → List (ℚ × ℕ)
  contentSims : ℕ → List ℚ
  metadata : List (String × MetaRecord)

/-- Embedding of the `is_ready` property (lines 294–301). -/
def RecService.is_ready (S : RecService) : Bool :=
  S.hasKnn && S.hasItemUser && S.hasMappings

/-- Python `idx_to_product.get(str(idx), "")`: the JSON dict's keys are the
decimal representations of the row indices, modelled here by the indices
themselves. -/
def getAsin (m : List (ℕ × String)) (idx : ℕ) : String :=
  (m.lookup idx).getD ""

/-- Embedding of `get_collaborative_recommendations` (lines 303–333):
query `n+1` neighbors, skip the first, convert distance `d` to similarity
`round(1-d, 3)`, then enrich. -/
def get_collaborative_recommendations (S : RecService) (product_asin : String) (n : ℕ) :
    List EnrichedRec :=
  if !S.is_ready then []
  else
    match S.product_to_idx.lookup product_asin with
    | Option.none => []
    | some product_idx =>
        let neighbors := S.kneighbors product_idx (n + 1)
        let recs := (neighbors.drop 1).map (fun dj =>
          { asin := getAsin S.idx_to_product dj.2,
            similarity := round3 (1 - dj.1),
            method := "collaborative" : RawRec })
        enrich_recommendations S.metadata recs

/-- The ascending comparison used to model `similarities.argsort()`:
compare positions of the similarity row. -/
def simIdxLe (xs : List ℚ) (i j : ℕ) : Prop := xs.getD i 0 ≤ xs.getD j 0

instance (xs : List ℚ) : DecidableRel (simIdxLe xs) :=
  fun i j => inferInstanceAs (Decidable (xs.getD i 0 ≤ xs.getD j 0))

instance (xs : List ℚ) : IsTotal ℕ (simIdxLe xs) :=
  ⟨fun i j => le_total (xs.getD i 0) (xs.getD j 0)⟩

instance (xs : List ℚ) : IsTrans ℕ (simIdxLe xs) := ⟨fun _ _ _ h h2 => le_trans h h2⟩

/-- Model of `similarities.argsort()[::-1]`: a stable ascending argsort of
the row, reversed.  (numpy's default quicksort fixes no tie order; the
stable order is one legitimate realisation, and on a two-element tie every
comparison sort gives this result.) -/
def argsortDesc (xs : List ℚ) : List ℕ :=
  (List.insertionSort (simIdxLe xs) (List.range xs.length)).reverse

/-- Embedding of `get_content_recommendations` (lines 335–367): compute the
cosine-similarity row, sort indices by similarity descending, take ranks
`1..n` (rank 0 assumed to be the query itself), then enrich. -/
def get_content_recommendations (S : RecService) (product_asin : String) (n : ℕ) :
    List EnrichedRec :=
  if !S.hasTfidf || !S.hasMappings then []
  else
    match S.cb_product_to_idx.lookup product_asin with
    | Option.none => []
    | some idx =>
        let similarities := S.contentSims idx
        let similar_indices := ((argsortDesc similarities).drop 1).take n
        let recs := similar_indices.map (fun i =>
          { asin := getAsin S.cb_idx_to_product i,
            similarity := round3 (similarities.getD i 0),
            method := "content" : RawRec })
        enrich_recommendations S.metadata recs

/-- The descending comparison used to model
`sorted(scores.items(), key=lambda x: x[1], reverse=True)`. -/
def scoreGe (a b : String × ℚ) : Prop := b.2 ≤ a.2

instance : DecidableRel scoreGe := fun a b => inferInstanceAs (Decidable (b.2 ≤ a.2))

instance : IsTotal (String × ℚ) scoreGe := ⟨fun a b => le_total b.2 a.2⟩

instance : IsTrans (String × ℚ) scoreGe := ⟨fun _ _ _ h h2 => le_trans h2 h⟩

/-- Python dict assignment `d[k] = v` for an insertion-ordered association
list: overwrite in place when the key exists, else append. -/
def dictSet {α : Type} (d : List (String × α)) (k : String) (v : α) : List (String × α) :=
  if (d.lookup k).isSome then d.map (fun p => if p.1 = k then (k, v) else p)
  else d ++ [(k, v)]

/-- Python dict in-place addition `d[k] += v` (key position kept). -/
def dictAdd (d : List (String × ℚ)) (k : String) (v : ℚ) : List (String × ℚ) :=
  d.map (fun p => if p.1 = k then (p.1, p.2 + v) else p)

/-- One iteration of the first hybrid accumulation loop (lines 392–395):
`scores[asin] = sim * cf_weight; product_data[asin] = rec`. -/
def cfStep (cf_weight : ℚ) (st : List (String × ℚ) × List (String × EnrichedRec))
    (r : EnrichedRec) : List (String × ℚ) × List (String × EnrichedRec) :=
  (dictSet st.1 r.asin (r.similarity * cf_weight), dictSet st.2 r.asin r)

/-- One iteration of the second hybrid accumulation loop (lines 397–403):
add `sim * cb_weight` for a known product, else insert it. -/
def cbStep (cb_weight : ℚ) (st : List (String × ℚ) × List (String × EnrichedRec))
    (r : EnrichedRec) : List (String × ℚ) × List (String × EnrichedRec) :=
  if (st.1.lookup r.asin).isSome then (dictAdd st.1 r.asin (r.similarity * cb_weight), st.2)
  else (dictSet st.1 r.asin (r.similarity * cb_weight), dictSet st.2 r.asin r)

/-- The `scores` and `product_data` dicts built by the two accumulation
loops of `get_hybrid_recommendations` (lines 388–403). -/
def hybridMaps (cf_recs cb_recs : List EnrichedRec) (cf_weight : ℚ) :
    List (String × ℚ) × List (String × EnrichedRec) :=
  cb_recs.foldl (cbStep (1 - cf_weight)) (cf_recs.foldl (cfStep cf_weight) ([], []))

/-- An entry of the hybrid result list: either a record passed through
unchanged by the one-side-empty fallbacks, or a fused record with a
combined score. -/
inductive HEntry where
  | passthru (r : EnrichedRec)
  | fused (asin : String) (score : ℚ) (data : EnrichedRec)
deriving DecidableEq

/-- The record used for an absent `product_data.get(asin, {})` entry: its
`image_url` is `Option.none`, so the defensive filter drops it exactly as the
code skips an empty dict. -/
instance : Inhabited EnrichedRec :=
  ⟨{ asin := "", similarity := 0, method := "", title := "", description := "",
     image_url := Option.none, price := Option.none, rating := Option.none,
     rating_count := Option.none, store := Option.none, categories := [] }⟩

/-- The score under which a hybrid result entry was ranked. -/
def HEntry.hscore : HEntry → ℚ
  | HEntry.passthru r => r.similarity
  | HEntry.fused _ s _ => s

/-- The product ID of a hybrid result entry. -/
def HEntry.hasin : HEntry → String
  | HEntry.passthru r => r.asin
  | HEntry.fused a _ _ => a

/-- Fusion and ranking of `get_hybrid_recommendations` (lines 379–427),
taking the two already-enriched candidate lists: one-side-empty fallbacks,
weighted score map, stable descending sort, truncation to `n`, and the
defensive image-presence re-filter. -/
def hybridCombine (cf_recs cb_recs : List EnrichedRec) (n : ℕ) (cf_weight : ℚ) :
    List HEntry :=
  if cf_recs.isEmpty && cb_recs.isEmpty then []
  else if cf_recs.isEmpty then (cb_recs.take n).map HEntry.passthru
  else if cb_recs.isEmpty then (cf_recs.take n).map HEntry.passthru
  else
    let maps := hybridMaps cf_recs cb_recs cf_weight
    let sorted_recs := List.insertionSort scoreGe maps.1
    ((sorted_recs.take n).filter (fun p =>
        truthyS (((maps.2.lookup p.1).getD default).image_url))).map (fun p =>
      HEntry.fused p.1 (round3 p.2) ((maps.2.lookup p.1).getD default))

/-- Embedding of `get_hybrid_recommendations` (lines 369–427): call both
recommenders for `2n` candidates and fuse. -/
def get_hybrid_recommendations (S : RecService) (product_asin : String) (n : ℕ)
    (cf_weight : ℚ) : List HEntry :=
  hybridCombine (get_collaborative_recommendations S product_asin (n * 2))
    (get_content_recommendations S product_asin (n * 2)) n cf_weight

/-- One row of the `weekly_demand` frame of `DemandService` (demand_service.py
lines 75–83): one record per (product, calendar week), already sorted by
(product, week) by the aggregation pass. -/
structure WRow where
  asin : String
  year_week : String
  demand : ℚ
  avg_rating : Option ℚ := Option.none
deriving DecidableEq

/-- The comparison used to model the stable `sort('year_week')` /
`sort_values('year_week')` on a single product's rows. -/
def weekLe (a b : WRow) : Prop := a.year_week ≤ b.year_week

instance : DecidableRel weekLe := fun a b => inferInstanceAs (Decidable (a.year_week ≤ b.year_week))

instance : IsTotal WRow weekLe := ⟨fun a b => le_total a.year_week b.year_week⟩

instance : IsTrans WRow weekLe := ⟨fun _ _ _ h h2 => le_trans h h2⟩

/-- Python `np.mean` on a list of floats (0 on the empty list, which the
code never reaches unguarded). -/
def npMean (xs : List ℚ) : ℚ := xs.sum / xs.length

/-- Population variance, the square of `np.std` (ddof = 0). -/
def npVar (xs : List ℚ) : ℚ := npMean (xs.map (fun x => (x - npMean xs) ^ 2))

/-- Python `np.std`, parameterised by the square-root map `sqrtFn` since a
rational square root does not exist in general; every theorem below either
holds for all `sqrtFn` or applies it only at perfect squares. -/
def npStd (sqrtFn : ℚ → ℚ) (xs : List ℚ) : ℚ := sqrtFn (npVar xs)

/-- The per-product rows of `weekly_demand`, filtered and stably sorted by
`year_week` (demand_service.py lines 174–178 and 306–310). -/
def productRows (weekly : List WRow) (asin : String) : List WRow :=
  List.insertionSort weekLe (weekly.filter (fun r => r.asin = asin))

/-- Trend classification of `get_product_demand` (lines 196–209), applied
to the product's weekly demand series. -/
def computeTrend (demands : List ℚ) : String :=
  let mid := demands.length / 2
  if 0 < mid then
    let first_half_avg := npMean (demands.take mid)
    let second_half_avg := npMean (demands.drop mid)
    if first_half_avg * (11/10) < second_half_avg then "increasing"
    else if second_half_avg < first_half_avg * (9/10) then "decreasing"
    else "stable"
  else "insufficient_data"

/-- The trend field of `get_product_demand` (lines 169–220): `none` when the
product has no rows; the series entries are `round(float(demand), 2)`. -/
def product_demand_trend (weekly : List WRow) (asin : String) : Option String :=
  let rows := productRows weekly asin
  if rows.isEmpty then Option.none
  else some (computeTrend (rows.map (fun r => round2 r.demand)))

/-- The feature vector fed to the forecast regression model
(demand_service.py lines 370–376). -/
structure Features where
  lag_1 : ℚ
  lag_2 : ℚ
  lag_4 : ℚ
  rolling_mean_4 : ℚ
  rolling_std_4 : ℚ
deriving DecidableEq

/-- Python `xs[-k:]`, for `k ≤ len(xs)` the last `k` entries. -/
def lastN (xs : List ℚ) (k : ℕ) : List ℚ := xs.drop (xs.length - k)

/-- Python `xs[-k]` (`k ≥ 1`), defaulting to 0 out of range. -/
def lagK (xs : List ℚ) (k : ℕ) : ℚ := xs.getD (xs.length - k) 0

/-- The features computed from the current history tail (lines 353–376),
including the degenerate-variance replacement of `rolling_std_4`. -/
def stepFeatures (sqrtFn : ℚ → ℚ) (historical : List ℚ) : Features :=
  let last_4 := lastN historical 4
  let rolling_mean_4 := npMean last_4
  let rolling_std_4 := npStd sqrtFn last_4
  { lag_1 := lagK historical 1
    lag_2 := lagK historical 2
    lag_4 := lagK historical 4
    rolling_mean_4 := rolling_mean_4
    rolling_std_4 :=
      if rolling_std_4 < 1/20 then max (1/10) (rolling_mean_4 * (3/20)) else rolling_std_4 }

/-- The anti-degeneracy replacement value of forecast step `i` (lines
390–397): `rolling_mean_4 + variation + trend_component`, floored at 0.1. -/
def correctionValue (historical_std trend : ℚ) (i : ℕ) (rolling_mean_4 : ℚ) : ℚ :=
  let direction : ℚ := if i % 2 = 0 then 1 else -1
  let base_variation := max (historical_std * (1/2)) (1/5)
  let variation := base_variation * direction * (1 + (i : ℚ) * (3/20))
  let trend_component := trend * ((i : ℚ) + 1) * (3/20)
  max (1/10) (rolling_mean_4 + variation + trend_component)

/-- One emitted point of a demand series or forecast. -/
structure FPoint where
  week : String
  demand : ℚ
  is_forecast : Bool
deriving DecidableEq

instance : Inhabited FPoint := ⟨⟨"", 0, false⟩⟩

/-- The prediction of one forecast step before rounding (lines 345–408).
`model` is the external regression model (`Option.none` models
`forecast_model.predict` raising, line 404's except-branch), `historical_std`
and `trend` are the loop-invariant statistics, `i` the step index,
`historical` the rolling buffer, `forecasts` the points emitted so far. -/
def stepPred (sqrtFn : ℚ → ℚ) (model : Features → Option ℚ) (historical_std trend : ℚ)
    (i : ℕ) (historical : List ℚ) (forecasts : List FPoint) : ℚ :=
  if historical.length < 4 then
    let avg_demand := if historical.isEmpty then 1 else npMean historical
    max (1/10) (avg_demand + (((i % 3 : ℕ) : ℚ) - 1) * (1/10))
  else
    let rolling_mean_4 := npMean (lastN historical 4)
    match model (stepFeatures sqrtFn historical) with
    | Option.none =>
        let variation := historical_std * (3/10) * (if i % 2 = 0 then 1 else -1)
        max (1/10) (rolling_mean_4 + variation + trend * ((i : ℚ) + 1) * (1/10))
    | some p =>
        let pred := max (1/10) p
        if 0 < i then
          let last_pred := ((forecasts.getLast?).getD default).demand
          if |pred - last_pred| < 3/20 then
            correctionValue historical_std trend i rolling_mean_4
          else if |pred - last_pred| < 1/20 then
            max (1/10) (last_pred + (if i % 2 = 0 then 3/20 else -(3/20)))
          else pred
        else pred

/-- One full iteration of the forecast loop (lines 344–424): compute the
prediction, emit the rounded display value, append the full-precision
prediction to the history and truncate the buffer to its last 20 entries. -/
def forecastStep (sqrtFn : ℚ → ℚ) (model : Features → Option ℚ) (historical_std trend : ℚ)
    (i : ℕ) (st : List ℚ × List FPoint) : List ℚ × List FPoint :=
  let pred := stepPred sqrtFn model historical_std trend i st.1 st.2
  let forecast_value := round2 pred
  let hist1 := st.1 ++ [pred]
  let hist2 := if 20 < hist1.length then lastN hist1 20 else hist1
  (hist2, st.2 ++ [{ week := "Forecast-" ++ toString (i + 1), demand := forecast_value,
                     is_forecast := true }])

/-- The successive states of the forecast loop starting at step `i` with
`fuel` steps left: the head is the state entering step `i`, the last entry
is the final state. -/
def runStates (sqrtFn : ℚ → ℚ) (model : Features → Option ℚ) (historical_std trend : ℚ) :
    ℕ → ℕ → List ℚ × List FPoint → List (List ℚ × List FPoint)
  | _, 0, st => [st]
  | i, fuel + 1, st =>
      st :: runStates sqrtFn model historical_std trend (i + 1) fuel
        (forecastStep sqrtFn model historical_std trend i st)

/-- The `historical_std` statistic computed before the loop (lines 333–342). -/
def histStd (sqrtFn : ℚ → ℚ) (historical : List ℚ) : ℚ :=
  if 8 ≤ historical.length then npStd sqrtFn (lastN historical 8) else 1/5

/-- The `trend` statistic computed before the loop (lines 333–342):
`mean(historical[-4:]) - mean(historical[-8:-4])`. -/
def histTrend (historical : List ℚ) : ℚ :=
  if 8 ≤ historical.length then npMean (lastN historical 4) - npMean ((lastN historical 8).take 4)
  else 0

/-- The result of `generate_forecast`. -/
structure ForecastOut where
  asin : String
  forecast : List FPoint
  historical : List FPoint
deriving DecidableEq

/-- Embedding of `DemandService.generate_forecast` (lines 300–445).
`is_ready` models `weekly_demand is not None`; `model = Option.none` models a
missing `forecast_model`.  The loop is run through `runStates`, whose last
entry is the state after the final step. -/
def generate_forecast (sqrtFn : ℚ → ℚ) (model : Option (Features → Option ℚ))
    (is_ready : Bool) (weekly : List WRow) (asin : String) (weeks : ℕ) : Option ForecastOut :=
  if !is_ready then Option.none
  else
    match model with
    | Option.none => Option.none
    | some m =>
        let rows := productRows weekly asin
        if rows.length < 10 then Option.none
        else
          let demands := rows.map (fun r => r.demand)
          let historical_std := histStd sqrtFn demands
          let trend := histTrend demands
          let final := (runStates sqrtFn m historical_std trend 0 weeks (demands, [])).getLastD
            (demands, [])
          let historical_data := (rows.drop (rows.length - 12)).map (fun r =>
            { week := r.year_week, demand := round2 r.demand, is_forecast := false : FPoint })
          some { asin := asin, forecast := final.2, historical := historical_data }

/-! ## Helper lemmas on rounding -/

theorem pyRound_bounds (q : ℚ) : ⌊q⌋ ≤ pyRound q ∧ pyRound q ≤ ⌊q⌋ + 1 := by
  unfold pyRound
  split_ifs <;> omega

theorem pyRound_mono {a b : ℚ} (h : a ≤ b) : pyRound a ≤ pyRound b := by
  rcases lt_trichotomy (⌊a⌋) (⌊b⌋) with hf | hf | hf
  · have h1 := (pyRound_bounds a).2
    have h2 := (pyRound_bounds b).1
    omega
  · unfold pyRound
    rw [hf]
    split_ifs <;> first | omega | linarith
  · exact absurd (Int.floor_mono h) (by omega)

theorem round2_mono {a b : ℚ} (h : a ≤ b) : round2 a ≤ round2 b := by
  unfold round2
  have := pyRound_mono (mul_le_mul_of_nonneg_right h (by norm_num : (0:ℚ) ≤ 100))
  have : (pyRound (a * 100) : ℚ) ≤ (pyRound (b * 100) : ℚ) := by exact_mod_cast this
  linarith

theorem round3_mono {a b : ℚ} (h : a ≤ b) : round3 a ≤ round3 b := by
  unfold round3
  have := pyRound_mono (mul_le_mul_of_nonneg_right h (by norm_num : (0:ℚ) ≤ 1000))
  have : (pyRound (a * 1000) : ℚ) ≤ (pyRound (b * 1000) : ℚ) := by exact_mod_cast this
  linarith

theorem round2_ge_tenth {q : ℚ} (h : 1/10 ≤ q) : 1/10 ≤ round2 q := by
  unfold round2
  have h10 : (10 : ℤ) ≤ ⌊q * 100⌋ := by
    rw [Int.le_floor]
    push_cast
    linarith
  have := (pyRound_bounds (q * 100)).1
  have : (10 : ℚ) ≤ (pyRound (q * 100) : ℚ) := by exact_mod_cast le_trans h10 this
  linarith

/-! ## C7: trend classification -/

/-- C7 (confirmed): trend classification splits the series at its midpoint
and compares half means: "increasing" iff the second-half mean exceeds the
first-half mean times 1.1, "decreasing" iff it is below the first-half mean
times 0.9, else "stable"; fewer than 2 points yields "insufficient_data".
The two worked examples of the spec are included. -/
theorem trend_classification (ds : List ℚ) :
    (ds.length < 2 → computeTrend ds = "insufficient_data") ∧
    (2 ≤ ds.length →
      computeTrend ds =
        (if npMean (ds.take (ds.length / 2)) * (11/10) < npMean (ds.drop (ds.length / 2))
         then "increasing"
         else if npMean (ds.drop (ds.length / 2)) < npMean (ds.take (ds.length / 2)) * (9/10)
         then "decreasing" else "stable")) ∧
    computeTrend [10, 10, 10, 10, 20, 20, 20, 20] = "increasing" ∧
    computeTrend [10, 10, 10, 10, 10, 10, 10, 10] = "stable" := by
  refine ⟨fun h => ?_, fun h => ?_, ?_, ?_⟩
  · have hm : ds.length / 2 = 0 := Nat.div_eq_of_lt h
    simp [computeTrend, hm]
  · have hm : 0 < ds.length / 2 := Nat.div_pos h (by norm_num)
    simp [computeTrend, hm]
  · norm_num [computeTrend, npMean]
  · norm_num [computeTrend, npMean]

/-- Witness for `trend_classification` at concrete inputs. -/
theorem trend_classification_witness :
    computeTrend [(5 : ℚ)] = "insufficient_data" ∧
    computeTrend [(1 : ℚ), 2] =
      (if npMean ([(1:ℚ), 2].take 1) * (11/10) < npMean ([(1:ℚ), 2].drop 1)
       then "increasing"
       else if npMean ([(1:ℚ), 2].drop 1) < npMean ([(1:ℚ), 2].take 1) * (9/10)
       then "decreasing" else "stable") :=
  ⟨(trend_classification [5]).1 (by norm_num),
   (trend_classification [1, 2]).2.1 (by norm_num)⟩

/-! ## C6: minimum-history gate of the forecaster -/

theorem pairwise_replicate_of_refl {α : Type} {r : α → α → Prop} {a : α} (h : r a a) :
    ∀ n : ℕ, (List.replicate n a).Pairwise r := by
  intro n
  induction n with
  | zero => simp
  | succ k ih =>
      rw [List.replicate_succ]
      exact List.Pairwise.cons (fun b hb => (List.eq_of_mem_replicate hb) ▸ h) ih

/-- On a constant list of rows for the queried product, filtering keeps
everything and the stable sort is the identity. -/
theorem productRows_const (asin w : String) (d : ℚ) (k : ℕ) :
    productRows (List.replicate k ⟨asin, w, d, Option.none⟩) asin
      = List.replicate k ⟨asin, w, d, Option.none⟩ := by
  unfold productRows
  have hf : (List.replicate k (⟨asin, w, d, Option.none⟩ : WRow)).filter
      (fun r => r.asin = asin) = List.replicate k ⟨asin, w, d, Option.none⟩ := by
    rw [List.filter_eq_self]
    intro r hr
    rw [List.eq_of_mem_replicate hr]
    simp
  rw [hf]
  have hs : List.Sorted weekLe (List.replicate k (⟨asin, w, d, Option.none⟩ : WRow)) :=
    pairwise_replicate_of_refl
      (show weekLe ⟨asin, w, d, Option.none⟩ ⟨asin, w, d, Option.none⟩ from le_refl w) k
  exact List.Sorted.insertionSort_eq hs

/-- C6 (confirmed): `generate_forecast` fails softly (returns `None`) when the
product has fewer than 10 sorted weekly rows — in particular with exactly 9 —
and produces a forecast whenever it has at least 10 — in particular with
exactly 10 — provided the service is ready and the model artifact loaded. -/
theorem forecast_min_history (sqrtFn : ℚ → ℚ) (model : Option (Features → Option ℚ))
    (ready : Bool) (weekly : List WRow) (asin : String) (weeks : ℕ) :
    ((productRows weekly asin).length < 10 →
      generate_forecast sqrtFn model ready weekly asin weeks = Option.none) ∧
    (10 ≤ (productRows weekly asin).length → ready = true → ∀ m, model = some m →
      (generate_forecast sqrtFn model ready weekly asin weeks).isSome = true) := by
  constructor
  · intro h
    cases ready <;> cases model <;> simp [generate_forecast, h]
  · intro hlen hready m hm
    subst hready
    subst hm
    simp [generate_forecast, Nat.not_lt.mpr hlen]

/-- A constant 9-week history. -/
def wk9 : List WRow := List.replicate 9 ⟨"A", "W", 2, Option.none⟩

/-- A constant 10-week history. -/
def wk10 : List WRow := List.replicate 10 ⟨"A", "W", 2, Option.none⟩

/-- Witness for `forecast_min_history`: 9 weeks yield `None`, 10 weeks yield
a forecast. -/
theorem forecast_min_history_witness :
    generate_forecast id (some (fun _ => some 1)) true wk9 "A" 4 = Option.none ∧
    (generate_forecast id (some (fun _ => some 1)) true wk10 "A" 4).isSome = true :=
  ⟨(forecast_min_history id (some (fun _ => some 1)) true wk9 "A" 4).1
      (by rw [wk9, productRows_const]; simp),
   (forecast_min_history id (some (fun _ => some 1)) true wk10 "A" 4).2
      (by rw [wk10, productRows_const]; simp) rfl _ rfl⟩

/-! ## C10: totality and shape of the price parser -/

/-- C10 (confirmed): `_parse_price` is total and returns `None` or a float:
`float(x)` for numeric input, a parse of the cleaned string (currency
symbols and commas removed, whitespace stripped) for strings — `None` when
the cleaned string is empty or unparseable — and `None` for `None` and any
other type.  Concrete cases: `"$13.99"`, `" 1,234.5 "`, `""`, `"abc"`. -/
theorem parse_price_shape :
    parse_price PyVal.none = Option.none ∧
    (∀ n : ℤ, parse_price (PyVal.int n) = some (n : ℚ)) ∧
    (∀ q : ℚ, parse_price (PyVal.float q) = some q) ∧
    parse_price PyVal.other = Option.none ∧
    (∀ s : String,
      parse_price (PyVal.str s) =
        (if (pyStrip (s.data.filter (fun c => c != '$' && c != ','))).isEmpty then Option.none
         else pyFloat (pyStrip (s.data.filter (fun c => c != '$' && c != ','))))) ∧
    parse_price (PyVal.str "$13.99") = some (1399/100) ∧
    parse_price (PyVal.str " 1,234.5 ") = some (2469/2) ∧
    parse_price (PyVal.str "") = Option.none ∧
    parse_price (PyVal.str "abc") = Option.none := by
  refine ⟨rfl, fun n => rfl, fun q => rfl, rfl, fun s => rfl, ?_, ?_, ?_, ?_⟩
  · have hstrip : pyStrip ['1', '3', '.', '9', '9'] = ['1', '3', '.', '9', '9'] := by decide
    have hparts : parseParts ['1', '3', '.', '9', '9'] = some (13, 99, 2, 0) := by decide
    simp [parse_price, hstrip, pyFloat, parseBody, hparts, partsVal]
    norm_num
  · have hstrip : pyStrip [' ', '1', '2', '3', '4', '.', '5', ' ']
        = ['1', '2', '3', '4', '.', '5'] := by decide
    have hparts : parseParts ['1', '2', '3', '4', '.', '5'] = some (1234, 5, 1, 0) := by decide
    simp [parse_price, hstrip, pyFloat, parseBody, hparts, partsVal]
    norm_num
  · decide
  · have hstrip : pyStrip ['a', 'b', 'c'] = ['a', 'b', 'c'] := by decide
    have hparts : parseParts ['a', 'b', 'c'] = Option.none := by decide
    simp [parse_price, hstrip, pyFloat, parseBody, hparts]

/-! ## C8: enrichment drops candidates without images -/

/-- C8 (confirmed): every record returned by enrichment carries a truthy
(non-null, non-empty) `image_url`; enrichment never lengthens the list —
so a recommender may return fewer than the requested count — and it can
strictly drop candidates, e.g. any candidate with no catalog record. -/
theorem enrichment_image_policy :
    (∀ metadata recs,
      (enrich_recommendations metadata recs).all (fun r => truthyS r.image_url) = true) ∧
    (∀ metadata recs, (enrich_recommendations metadata recs).length ≤ recs.length) ∧
    enrich_recommendations []
      [{ asin := "X", similarity := 1, method := "collaborative" }] = [] := by
  refine ⟨?_, ?_, ?_⟩
  · intro metadata recs
    rw [List.all_eq_true]
    intro r hr
    unfold enrich_recommendations at hr
    rcases List.mem_map.mp hr with ⟨r0, hr0, rfl⟩
    simpa using List.of_mem_filter hr0
  · intro metadata recs
    unfold enrich_recommendations
    rw [List.length_map]
    exact List.length_filter_le _ _
  · rfl

/-! ## Association-list (Python dict) lemmas -/

theorem lookup_append_of_ne {α : Type} (d : List (String × α)) (k k' : String) (v : α)
    (h : k' ≠ k) : (d ++ [(k, v)]).lookup k' = d.lookup k' := by
  induction d with
  | nil => simp [List.lookup_cons, beq_eq_false_iff_ne.mpr h, List.lookup]
  | cons p t ih =>
      rcases p with ⟨pk, pv⟩
      by_cases hp : k' = pk
      · simp [List.cons_append, List.lookup_cons, beq_iff_eq.mpr hp]
      · simp [List.cons_append, List.lookup_cons, beq_eq_false_iff_ne.mpr hp, ih]

theorem lookup_append_single_self {α : Type} (d : List (String × α)) (k : String) (v : α)
    (h : d.lookup k = Option.none) : (d ++ [(k, v)]).lookup k = some v := by
  induction d with
  | nil => simp [List.lookup_cons]
  | cons p t ih =>
      rcases p with ⟨pk, pv⟩
      by_cases hp : k = pk
      · simp [List.lookup_cons, beq_iff_eq.mpr hp] at h
      · simp only [List.lookup_cons, beq_eq_false_iff_ne.mpr hp] at h ⊢
        simp only [List.cons_append, List.lookup_cons, beq_eq_false_iff_ne.mpr hp]
        exact ih h

theorem lookup_mapSet_self {α : Type} (d : List (String × α)) (k : String) (v : α)
    (h : (d.lookup k).isSome = true) :
    (d.map (fun p => if p.1 = k then (k, v) else p)).lookup k = some v := by
  induction d with
  | nil => simp at h
  | cons p t ih =>
      rcases p with ⟨pk, pv⟩
      by_cases hp : pk = k
      · subst hp
        simp [List.lookup_cons]
      · simp only [List.lookup_cons, beq_eq_false_iff_ne.mpr (Ne.symm hp)] at h
        simp only [List.map_cons, if_neg hp, List.lookup_cons,
          beq_eq_false_iff_ne.mpr (Ne.symm hp)]
        exact ih h

theorem lookup_mapSet_ne {α : Type} (d : List (String × α)) (k k' : String) (v : α)
    (h : k' ≠ k) :
    (d.map (fun p => if p.1 = k then (k, v) else p)).lookup k' = d.lookup k' := by
  induction d with
  | nil => simp
  | cons p t ih =>
      rcases p with ⟨pk, pv⟩
      by_cases hp : pk = k
      · subst hp
        simp [List.lookup_cons, beq_eq_false_iff_ne.mpr h, ih]
      · by_cases hk : k' = pk
        · simp [List.map_cons, if_neg hp, List.lookup_cons, beq_iff_eq.mpr hk]
        · simp [List.map_cons, if_neg hp, List.lookup_cons, beq_eq_false_iff_ne.mpr hk, ih]

theorem lookup_dictSet_self {α : Type} (d : List (String × α)) (k : String) (v : α) :
    (dictSet d k v).lookup k = some v := by
  unfold dictSet
  split_ifs with hs
  · exact lookup_mapSet_self d k v hs
  · exact lookup_append_single_self d k v (Option.not_isSome_iff_eq_none.mp hs)

theorem lookup_dictSet_ne {α : Type} (d : List (String × α)) (k k' : String) (v : α)
    (h : k' ≠ k) : (dictSet d k v).lookup k' = d.lookup k' := by
  unfold dictSet
  split_ifs with hs
  · exact lookup_mapSet_ne d k k' v h
  · exact lookup_append_of_ne d k k' v h

theorem lookup_dictAdd_self (d : List (String × ℚ)) (k : String) (v : ℚ) :
    (dictAdd d k v).lookup k = (d.lookup k).map (fun x => x + v) := by
  unfold dictAdd
  induction d with
  | nil => simp
  | cons p t ih =>
      rcases p with ⟨pk, pv⟩
      by_cases hp : pk = k
      · subst hp
        simp [List.lookup_cons]
      · simp only [List.map_cons, if_neg hp, List.lookup_cons,
          beq_eq_false_iff_ne.mpr (Ne.symm hp)]
        exact ih

theorem lookup_dictAdd_ne (d : List (String × ℚ)) (k k' : String) (v : ℚ)
    (h : k' ≠ k) : (dictAdd d k v).lookup k' = d.lookup k' := by
  unfold dictAdd
  induction d with
  | nil => simp
  | cons p t ih =>
      rcases p with ⟨pk, pv⟩
      by_cases hp : pk = k
      · subst hp
        simp [List.lookup_cons, beq_eq_false_iff_ne.mpr h, ih]
      · by_cases hk : k' = pk
        · simp [List.map_cons, if_neg hp, List.lookup_cons, beq_iff_eq.mpr hk]
        · simp [List.map_cons, if_neg hp, List.lookup_cons, beq_eq_false_iff_ne.mpr hk, ih]

theorem dictAdd_zero (d : List (String × ℚ)) (k : String) : dictAdd d k 0 = d := by
  unfold dictAdd
  rw [List.map_congr_left (fun p _ => ?_), List.map_id]
  split_ifs <;> simp

/-! ## Hybrid accumulation-loop lemmas -/

theorem cfFold_lookup_ne (w : ℚ) (l : List EnrichedRec)
    (st : List (String × ℚ) × List (String × EnrichedRec)) (a : String)
    (h : ∀ r ∈ l, r.asin ≠ a) :
    (l.foldl (cfStep w) st).1.lookup a = st.1.lookup a ∧
    (l.foldl (cfStep w) st).2.lookup a = st.2.lookup a := by
  induction l generalizing st with
  | nil => exact ⟨rfl, rfl⟩
  | cons r t ih =>
      simp only [List.foldl_cons]
      have hr : a ≠ r.asin := Ne.symm (h r (List.mem_cons_self r t))
      obtain ⟨h1, h2⟩ := ih (cfStep w st r) (fun x hx => h x (List.mem_cons_of_mem _ hx))
      refine ⟨h1.trans ?_, h2.trans ?_⟩
      · exact lookup_dictSet_ne st.1 r.asin a _ hr
      · exact lookup_dictSet_ne st.2 r.asin a _ hr

theorem cfFold_lookup_self (w : ℚ) (l : List EnrichedRec) (r0 : EnrichedRec)
    (hmem : r0 ∈ l) (hnd : (l.map (fun r => r.asin)).Nodup) :
    ∀ st, (l.foldl (cfStep w) st).1.lookup r0.asin = some (r0.similarity * w) ∧
      (l.foldl (cfStep w) st).2.lookup r0.asin = some r0 := by
  induction l with
  | nil => cases hmem
  | cons r t ih =>
      intro st
      simp only [List.map_cons, List.nodup_cons] at hnd
      simp only [List.foldl_cons]
      rcases List.mem_cons.mp hmem with rfl | hmem'
      · have ht : ∀ x ∈ t, x.asin ≠ r0.asin := by
          intro x hx he
          exact hnd.1 (he ▸ List.mem_map_of_mem _ hx)
        obtain ⟨h1, h2⟩ := cfFold_lookup_ne w t (cfStep w st r0) r0.asin ht
        rw [h1, h2]
        exact ⟨lookup_dictSet_self _ _ _, lookup_dictSet_self _ _ _⟩
      · exact ih hmem' hnd.2 (cfStep w st r)

theorem cbFold_lookup_ne (cbw : ℚ) (l : List EnrichedRec)
    (st : List (String × ℚ) × List (String × EnrichedRec)) (a : String)
    (h : ∀ r ∈ l, r.asin ≠ a) :
    (l.foldl (cbStep cbw) st).1.lookup a = st.1.lookup a ∧
    (l.foldl (cbStep cbw) st).2.lookup a = st.2.lookup a := by
  induction l generalizing st with
  | nil => exact ⟨rfl, rfl⟩
  | cons r t ih =>
      simp only [List.foldl_cons]
      have hr : a ≠ r.asin := Ne.symm (h r (List.mem_cons_self r t))
      obtain ⟨h1, h2⟩ := ih (cbStep cbw st r) (fun x hx => h x (List.mem_cons_of_mem _ hx))
      refine ⟨h1.trans ?_, h2.trans ?_⟩ <;> unfold cbStep <;> split_ifs
      · exact lookup_dictAdd_ne st.1 r.asin a _ hr
      · exact lookup_dictSet_ne st.1 r.asin a _ hr
      · rfl
      · exact lookup_dictSet_ne st.2 r.asin a _ hr

theorem cbFold_lookup_add (cbw : ℚ) (l : List EnrichedRec) (r0 : EnrichedRec)
    (hmem : r0 ∈ l) (hnd : (l.map (fun r => r.asin)).Nodup) :
    ∀ st v, st.1.lookup r0.asin = some v →
      (l.foldl (cbStep cbw) st).1.lookup r0.asin = some (v + r0.similarity * cbw) := by
  induction l with
  | nil => cases hmem
  | cons r t ih =>
      intro st v hv
      simp only [List.map_cons, List.nodup_cons] at hnd
      simp only [List.foldl_cons]
      rcases List.mem_cons.mp hmem with rfl | hmem'
      · have ht : ∀ x ∈ t, x.asin ≠ r0.asin := by
          intro x hx he
          exact hnd.1 (he ▸ List.mem_map_of_mem _ hx)
        have hsome : (st.1.lookup r0.asin).isSome = true := by rw [hv]; rfl
        rw [(cbFold_lookup_ne cbw t (cbStep cbw st r0) r0.asin ht).1]
        unfold cbStep
        rw [if_pos hsome]
        rw [show (dictAdd st.1 r0.asin (r0.similarity * cbw), st.2).1
          = dictAdd st.1 r0.asin (r0.similarity * cbw) from rfl]
        rw [lookup_dictAdd_self, hv]
        rfl
      · have hr : r.asin ≠ r0.asin := by
          intro he
          exact hnd.1 (he ▸ List.mem_map_of_mem _ hmem')
        apply ih hmem' hnd.2
        unfold cbStep
        split_ifs
        · exact (lookup_dictAdd_ne st.1 r.asin r0.asin _ (Ne.symm hr)).trans hv
        · exact (lookup_dictSet_ne st.1 r.asin r0.asin _ (Ne.symm hr)).trans hv

theorem cbFold_lookup_new (cbw : ℚ) (l : List EnrichedRec) (r0 : EnrichedRec)
    (hmem : r0 ∈ l) (hnd : (l.map (fun r => r.asin)).Nodup) :
    ∀ st, st.1.lookup r0.asin = Option.none →
      (l.foldl (cbStep cbw) st).1.lookup r0.asin = some (r0.similarity * cbw) := by
  induction l with
  | nil => cases hmem
  | cons r t ih =>
      intro st hv
      simp only [List.map_cons, List.nodup_cons] at hnd
      simp only [List.foldl_cons]
      rcases List.mem_cons.mp hmem with rfl | hmem'
      · have ht : ∀ x ∈ t, x.asin ≠ r0.asin := by
          intro x hx he
          exact hnd.1 (he ▸ List.mem_map_of_mem _ hx)
        have hnone : ¬ (st.1.lookup r0.asin).isSome = true := by rw [hv]; simp
        rw [(cbFold_lookup_ne cbw t (cbStep cbw st r0) r0.asin ht).1]
        unfold cbStep
        rw [if_neg hnone]
        exact lookup_dictSet_self _ _ _
      · have hr : r.asin ≠ r0.asin := by
          intro he
          exact hnd.1 (he ▸ List.mem_map_of_mem _ hmem')
        apply ih hmem' hnd.2
        unfold cbStep
        split_ifs
        · exact (lookup_dictAdd_ne st.1 r.asin r0.asin _ (Ne.symm hr)).trans hv
        · exact (lookup_dictSet_ne st.1 r.asin r0.asin _ (Ne.symm hr)).trans hv

/-! ## C3: hybrid score fusion -/

/-- C3 (confirmed): in the score map driving `get_hybrid_recommendations`
when both candidate lists are non-empty, a product in both lists scores
`cfWeight*simCF + (1-cfWeight)*simCB`, and a product in exactly one list
scores its similarity times that method's weight (assuming, as the index
mappings guarantee, no duplicated ASIN inside a single candidate list). -/
theorem hybrid_score_fusion (cf_recs cb_recs : List EnrichedRec) (w : ℚ)
    (hcf : (cf_recs.map (fun r => r.asin)).Nodup)
    (hcb : (cb_recs.map (fun r => r.asin)).Nodup) :
    (∀ r1 ∈ cf_recs, ∀ r2 ∈ cb_recs, r2.asin = r1.asin →
      (hybridMaps cf_recs cb_recs w).1.lookup r1.asin
        = some (w * r1.similarity + (1 - w) * r2.similarity)) ∧
    (∀ r1 ∈ cf_recs, (∀ r2 ∈ cb_recs, r2.asin ≠ r1.asin) →
      (hybridMaps cf_recs cb_recs w).1.lookup r1.asin = some (r1.similarity * w)) ∧
    (∀ r2 ∈ cb_recs, (∀ r1 ∈ cf_recs, r1.asin ≠ r2.asin) →
      (hybridMaps cf_recs cb_recs w).1.lookup r2.asin = some (r2.similarity * (1 - w))) := by
  refine ⟨?_, ?_, ?_⟩
  · intro r1 h1 r2 h2 he
    unfold hybridMaps
    have hcf1 := (cfFold_lookup_self w cf_recs r1 h1 hcf ([], [])).1
    have := cbFold_lookup_add (1 - w) cb_recs r2 h2 hcb (cf_recs.foldl (cfStep w) ([], []))
      (r1.similarity * w) (by rw [he, hcf1])
    rw [he] at this
    rw [this]
    congr 1
    ring
  · intro r1 h1 hno
    unfold hybridMaps
    rw [(cbFold_lookup_ne (1 - w) cb_recs _ r1.asin hno).1]
    exact (cfFold_lookup_self w cf_recs r1 h1 hcf ([], [])).1
  · intro r2 h2 hno
    unfold hybridMaps
    apply cbFold_lookup_new (1 - w) cb_recs r2 h2 hcb
    rw [(cfFold_lookup_ne w cf_recs ([], []) r2.asin hno).1]
    rfl

/-- A minimal enriched record with a displayable image, for witnesses. -/
def wrec (a : String) (s : ℚ) (m : String) : EnrichedRec :=
  { asin := a, similarity := s, method := m, title := a, description := "",
    image_url := some "http://img/x.jpg", price := Option.none, rating := Option.none,
    rating_count := Option.none, store := Option.none, categories := [] }

/-- Witness for `hybrid_score_fusion` on concrete candidate lists. -/
theorem hybrid_score_fusion_witness :
    (hybridMaps [wrec "A" 1 "collaborative", wrec "B" 2 "collaborative"]
        [wrec "B" 3 "content", wrec "C" 4 "content"] (3/5)).1.lookup "B"
      = some ((3/5) * 2 + (1 - 3/5) * 3) ∧
    (hybridMaps [wrec "A" 1 "collaborative", wrec "B" 2 "collaborative"]
        [wrec "B" 3 "content", wrec "C" 4 "content"] (3/5)).1.lookup "A"
      = some (1 * (3/5)) ∧
    (hybridMaps [wrec "A" 1 "collaborative", wrec "B" 2 "collaborative"]
        [wrec "B" 3 "content", wrec "C" 4 "content"] (3/5)).1.lookup "C"
      = some (4 * (1 - 3/5)) := by
  have h := hybrid_score_fusion
    [wrec "A" 1 "collaborative", wrec "B" 2 "collaborative"]
    [wrec "B" 3 "content", wrec "C" 4 "content"] (3/5)
    (by decide) (by decide)
  refine ⟨?_, ?_, ?_⟩
  · exact h.1 (wrec "B" 2 "collaborative") (List.mem_cons_of_mem _ (List.mem_cons_self _ _))
      (wrec "B" 3 "content") (List.mem_cons_self _ _) rfl
  · exact h.2.1 (wrec "A" 1 "collaborative") (List.mem_cons_self _ _)
      (by intro r2 h2 he
          rcases List.mem_cons.mp h2 with rfl | h2'
          · exact absurd he (by decide)
          · rcases List.mem_cons.mp h2' with rfl | h2''
            · exact absurd he (by decide)
            · cases h2'')
  · exact h.2.2 (wrec "C" 4 "content")
      (List.mem_cons_of_mem _ (List.mem_cons_self _ _))
      (by intro r1 h1 he
          rcases List.mem_cons.mp h1 with rfl | h1'
          · exact absurd he (by decide)
          · rcases List.mem_cons.mp h1' with rfl | h1''
            · exact absurd he (by decide)
            · cases h1'')

/-! ## C4: forecast loop invariants -/

theorem stepPred_ge_tenth (sqrtFn : ℚ → ℚ) (model : Features → Option ℚ) (hs tr : ℚ)
    (i : ℕ) (historical : List ℚ) (forecasts : List FPoint) :
    1/10 ≤ stepPred sqrtFn model hs tr i historical forecasts := by
  unfold stepPred
  dsimp only
  split
  · exact le_max_left _ _
  · split
    · exact le_max_left _ _
    · split
      · split
        · unfold correctionValue
          exact le_max_left _ _
        · split
          · exact le_max_left _ _
          · exact le_max_left _ _
      · exact le_max_left _ _

theorem forecastStep_length_le (sqrtFn : ℚ → ℚ) (model : Features → Option ℚ) (hs tr : ℚ)
    (i : ℕ) (st : List ℚ × List FPoint) :
    (forecastStep sqrtFn model hs tr i st).1.length ≤ 20 := by
  unfold forecastStep
  dsimp only
  split_ifs with h
  · unfold lastN
    rw [List.length_drop]
    omega
  · rw [List.length_append] at h ⊢
    simpa using Nat.not_lt.mp h

theorem forecastStep_forecasts (sqrtFn : ℚ → ℚ) (model : Features → Option ℚ) (hs tr : ℚ)
    (i : ℕ) (st : List ℚ × List FPoint) :
    (forecastStep sqrtFn model hs tr i st).2
      = st.2 ++ [{ week := "Forecast-" ++ toString (i + 1),
                   demand := round2 (stepPred sqrtFn model hs tr i st.1 st.2),
                   is_forecast := true }] := rfl

theorem runStates_mem (sqrtFn : ℚ → ℚ) (model : Features → Option ℚ) (hs tr : ℚ) :
    ∀ fuel i st s, s ∈ runStates sqrtFn model hs tr i fuel st →
      (s = st ∨ s.1.length ≤ 20) ∧
      ((∀ p ∈ st.2, 1/10 ≤ p.demand) → ∀ p ∈ s.2, 1/10 ≤ p.demand) := by
  intro fuel
  induction fuel with
  | zero =>
      intro i st s hs0
      rw [runStates] at hs0
      rw [List.mem_singleton.mp hs0]
      exact ⟨Or.inl rfl, fun h => h⟩
  | succ k ih =>
      intro i st s hs0
      rw [runStates] at hs0
      rcases List.mem_cons.mp hs0 with rfl | hmem
      · exact ⟨Or.inl rfl, fun h => h⟩
      · obtain ⟨ha, hb⟩ := ih (i + 1) (forecastStep sqrtFn model hs tr i st) s hmem
        constructor
        · right
          rcases ha with rfl | hlen
          · exact forecastStep_length_le sqrtFn model hs tr i st
          · exact hlen
        · intro hst
          apply hb
          rw [forecastStep_forecasts]
          intro p hp
          rcases List.mem_append.mp hp with h | h
          · exact hst p h
          · rw [List.mem_singleton.mp h]
            exact round2_ge_tenth (stepPred_ge_tenth sqrtFn model hs tr i st.1 st.2)

theorem runStates_ne_nil (sqrtFn : ℚ → ℚ) (model : Features → Option ℚ) (hs tr : ℚ)
    (i fuel : ℕ) (st : List ℚ × List FPoint) :
    runStates sqrtFn model hs tr i fuel st ≠ [] := by
  cases fuel <;> simp [runStates]

theorem getLastD_mem {α : Type} (l : List α) (d : α) (h : l ≠ []) : l.getLastD d ∈ l := by
  induction l with
  | nil => exact absurd rfl h
  | cons a t ih =>
      cases ht : t with
      | nil => simp [List.getLastD]
      | cons b t2 =>
          rw [List.getLastD_cons]
          subst ht
          exact List.mem_cons_of_mem _ (ih (by simp))

/-- C4 (corrected): in every run of `generate_forecast`, every emitted
forecast value is at least 0.1, and after every forecast step the rolling
buffer holds at most 20 entries; the initial buffer, however, is seeded with
the full historical series and is only trimmed after the first append, so
"never exceeds 20" holds for every state except possibly the seed. -/
theorem forecast_floor_and_buffer (sqrtFn : ℚ → ℚ) (model : Option (Features → Option ℚ))
    (ready : Bool) (weekly : List WRow) (asin : String) (weeks : ℕ) (out : ForecastOut)
    (h : generate_forecast sqrtFn model ready weekly asin weeks = some out) :
    (∀ p ∈ out.forecast, 1/10 ≤ p.demand) ∧
    (∀ m, model = some m →
      ∀ s ∈ runStates sqrtFn m
          (histStd sqrtFn ((productRows weekly asin).map (fun r => r.demand)))
          (histTrend ((productRows weekly asin).map (fun r => r.demand))) 0 weeks
          ((productRows weekly asin).map (fun r => r.demand), []),
        (s = ((productRows weekly asin).map (fun r => r.demand), []) ∨ s.1.length ≤ 20) ∧
        ∀ p ∈ s.2, 1/10 ≤ p.demand) := by
  constructor
  · cases hr : ready with
    | false => rw [hr] at h; simp [generate_forecast] at h
    | true =>
        cases hm : model with
        | none => rw [hr, hm] at h; simp [generate_forecast] at h
        | some m =>
            rw [hr, hm] at h
            by_cases hlen : (productRows weekly asin).length < 10
            · simp [generate_forecast, hlen] at h
            · simp only [generate_forecast, Bool.not_true, Bool.false_eq_true, if_false,
                if_neg hlen, Option.some.injEq] at h
              intro p hp
              rw [← h] at hp
              dsimp only at hp
              have hfin := getLastD_mem _
                ((productRows weekly asin).map (fun r => r.demand), ([] : List FPoint))
                (runStates_ne_nil sqrtFn m
                  (histStd sqrtFn ((productRows weekly asin).map (fun r => r.demand)))
                  (histTrend ((productRows weekly asin).map (fun r => r.demand))) 0 weeks
                  ((productRows weekly asin).map (fun r => r.demand), []))
              have := (runStates_mem sqrtFn m
                (histStd sqrtFn ((productRows weekly asin).map (fun r => r.demand)))
                (histTrend ((productRows weekly asin).map (fun r => r.demand))) weeks 0
                ((productRows weekly asin).map (fun r => r.demand), []) _ hfin).2
                (by intro q hq; cases hq)
              exact this p hp
  · intro m hm s hsmem
    obtain ⟨ha, hb⟩ := runStates_mem sqrtFn m
      (histStd sqrtFn ((productRows weekly asin).map (fun r => r.demand)))
      (histTrend ((productRows weekly asin).map (fun r => r.demand))) weeks 0
      ((productRows weekly asin).map (fun r => r.demand), []) s hsmem
    exact ⟨ha, hb (by intro q hq; cases hq)⟩

/-- The output of `generate_forecast` on `wk10` under the constant model 1. -/
def c4Out : ForecastOut :=
  { asin := "A",
    forecast := [{ week := "Forecast-1", demand := 1, is_forecast := true }],
    historical := List.replicate 10 { week := "W", demand := 2, is_forecast := false } }

theorem wk10_rows : productRows wk10 "A" = List.replicate 10 ⟨"A", "W", 2, Option.none⟩ := by
  unfold wk10
  exact productRows_const "A" "W" 2 10

theorem c4_run : generate_forecast id (some (fun _ => some 1)) true wk10 "A" 1 = some c4Out := by
  have hlbl : "Forecast-" ++ toString (0 + 1) = "Forecast-1" := by decide
  simp only [generate_forecast, wk10_rows, Bool.not_true, if_false]
  norm_num [runStates, forecastStep, stepPred, stepFeatures, histStd, histTrend, npStd, npVar,
    npMean, lastN, List.map_replicate, List.drop_replicate, List.sum_replicate, round2, pyRound,
    c4Out, hlbl, List.replicate]

/-- Witness for `forecast_floor_and_buffer`: the concrete run `c4_run`
yields a first forecast point whose demand respects the 0.1 floor. -/
theorem forecast_floor_and_buffer_witness :
    (1 : ℚ)/10 ≤ ((c4Out.forecast.headD default).demand) := by
  have h := (forecast_floor_and_buffer id (some (fun _ => some 1)) true wk10 "A" 1 c4Out
    c4_run).1
  exact h _ (by simp [c4Out])

/-- A constant 21-week history: more rows than the buffer cap. -/
def wk21 : List WRow := List.replicate 21 ⟨"A", "W", 2, Option.none⟩

theorem wk21_rows : productRows wk21 "A" = List.replicate 21 ⟨"A", "W", 2, Option.none⟩ := by
  unfold wk21
  exact productRows_const "A" "W" 2 21

/-- C4 counterexample: with 21 historical weeks the run succeeds, but the
state entering the first forecast step — the seeded rolling buffer — holds
21 entries, exceeding the claimed bound of 20.  (The trim happens only after
each step's append.) -/
theorem forecast_buffer_counterexample :
    (generate_forecast id (some (fun _ => some 1)) true wk21 "A" 1).isSome = true ∧
    ((productRows wk21 "A").map (fun r => r.demand), ([] : List FPoint)) ∈
      runStates id (fun _ => some 1)
        (histStd id ((productRows wk21 "A").map (fun r => r.demand)))
        (histTrend ((productRows wk21 "A").map (fun r => r.demand))) 0 1
        ((productRows wk21 "A").map (fun r => r.demand), []) ∧
    ((productRows wk21 "A").map (fun r => r.demand)).length = 21 ∧
    ¬ (21 ≤ 20) := by
  refine ⟨?_, ?_, ?_, by norm_num⟩
  · simp only [generate_forecast, wk21_rows, Bool.not_true, if_false]
    norm_num
  · rw [runStates]
    exact List.mem_cons_self _ _
  · rw [wk21_rows]
    simp

/-! ## C2: the post-correction re-check branch -/

/-- C2 (corrected): once the anti-degeneracy correction (triggered by
`|pred - prev| < 0.15`) has replaced `pred`, the step emits exactly the
correction value — no re-check of the corrected prediction against `prev`
happens, because the 0.05 branch is an `elif` of the same original
comparison; and when the original prediction is at least 0.15 away from
`prev`, it is emitted unchanged, the 0.05 branch being unsatisfiable there. -/
theorem forecast_correction_no_recheck (sqrtFn : ℚ → ℚ) (model : Features → Option ℚ)
    (hs tr : ℚ) (i : ℕ) (st : List ℚ × List FPoint) (p : ℚ)
    (h4 : ¬ st.1.length < 4) (hi : 0 < i)
    (hm : model (stepFeatures sqrtFn st.1) = some p) :
    (|max (1/10) p - ((st.2.getLast?).getD default).demand| < 3/20 →
      stepPred sqrtFn model hs tr i st.1 st.2
        = correctionValue hs tr i (npMean (lastN st.1 4))) ∧
    (3/20 ≤ |max (1/10) p - ((st.2.getLast?).getD default).demand| →
      stepPred sqrtFn model hs tr i st.1 st.2 = max (1/10) p) := by
  constructor
  · intro hclose
    unfold stepPred
    rw [if_neg h4]
    dsimp only
    rw [hm]
    dsimp only
    rw [if_pos hi, if_pos hclose]
  · intro hfar
    unfold stepPred
    rw [if_neg h4]
    dsimp only
    rw [hm]
    dsimp only
    rw [if_pos hi, if_neg (not_lt.mpr hfar),
      if_neg (not_lt.mpr (le_trans (by norm_num) hfar))]

/-- Witness for `forecast_correction_no_recheck` at a concrete step state. -/
theorem forecast_correction_no_recheck_witness :
    stepPred id (fun _ => some 1) 0 0 1 [2, 2, 2, 2]
        [{ week := "Forecast-1", demand := 1, is_forecast := true }]
      = correctionValue 0 0 1 (npMean (lastN [2, 2, 2, 2] 4)) :=
  (forecast_correction_no_recheck id (fun _ => some 1) 0 0 1
    ([2, 2, 2, 2], [{ week := "Forecast-1", demand := 1, is_forecast := true }]) 1
    (by norm_num) (by norm_num) rfl).1 (by norm_num [List.getLast?])

/-- The constant external model used by the C2 counterexample run. -/
def c2Model : Features → Option ℚ := fun _ => some (127/75)

/-- The state of the C2 counterexample run after forecast step 0. -/
def c2St1 : List ℚ × List FPoint :=
  (List.replicate 10 2 ++ [127/75],
   [{ week := "Forecast-1", demand := 169/100, is_forecast := true }])

/-- C2 counterexample: a real `generate_forecast` run (10 weeks of demand 2,
model constantly 127/75, horizon 2) reaches step 1 in state `c2St1`, where
the anti-degeneracy correction fires and its result is still within 0.05 of
the previous emitted value 1.69; the claim then mandates forcing the
prediction to `prev - 0.15` (step 1 is odd), i.e. emitting 1.54, but the
code emits the corrected value 1.69: the 0.05 re-check never executes. -/
theorem forecast_recheck_counterexample :
    (productRows wk10 "A").map (fun r => r.demand) = List.replicate 10 2 ∧
    histStd id ((productRows wk10 "A").map (fun r => r.demand)) = 0 ∧
    histTrend ((productRows wk10 "A").map (fun r => r.demand)) = 0 ∧
    forecastStep id c2Model 0 0 0 (List.replicate 10 2, []) = c2St1 ∧
    |max (1/10) (127/75) - ((c2St1.2.getLast?).getD default).demand| < 3/20 ∧
    |correctionValue 0 0 1 (npMean (lastN c2St1.1 4))
        - ((c2St1.2.getLast?).getD default).demand| < 1/20 ∧
    ((forecastStep id c2Model 0 0 1 c2St1).2.getLastD default).demand = 169/100 ∧
    round2 (max (1/10) (((c2St1.2.getLast?).getD default).demand - 3/20)) = 154/100 ∧
    (169/100 : ℚ) ≠ 154/100 ∧
    (generate_forecast id (some c2Model) true wk10 "A" 2).map
        (fun o => o.forecast.map (fun p => p.demand)) = some [169/100, 169/100] := by
  have hrows : (productRows wk10 "A").map (fun r => r.demand) = List.replicate 10 2 := by
    rw [wk10_rows]
    simp
  have habs : |(1:ℚ)/300| = 1/300 := abs_of_pos (by norm_num)
  refine ⟨hrows, ?_, ?_, ?_, ?_, ?_, ?_, ?_, by norm_num, ?_⟩
  · rw [hrows]
    norm_num [histStd, npStd, npVar, npMean, lastN, List.drop_replicate, List.map_replicate,
      List.sum_replicate, List.replicate]
  · rw [hrows]
    norm_num [histTrend, npMean, lastN, List.drop_replicate, List.sum_replicate, List.replicate]
  · have hlbl : "Forecast-" ++ toString (0 + 1) = "Forecast-1" := by decide
    norm_num [forecastStep, stepPred, stepFeatures, c2Model, c2St1, npStd, npVar, npMean, lastN,
      round2, pyRound, hlbl, List.replicate]
  · norm_num [c2St1, List.getLast?, habs]
  · norm_num [c2St1, correctionValue, npMean, lastN, List.getLast?, List.replicate, habs]
  · have hlbl : "Forecast-" ++ toString (1 + 1) = "Forecast-2" := by decide
    norm_num [forecastStep, stepPred, stepFeatures, c2Model, c2St1, correctionValue, npStd,
      npVar, npMean, lastN, round2, pyRound, hlbl, List.getLast?, List.replicate, habs]
  · norm_num [c2St1, round2, pyRound, List.getLast?]
  · have hlbl1 : "Forecast-" ++ toString (0 + 1) = "Forecast-1" := by decide
    have hlbl2 : "Forecast-" ++ toString (1 + 1) = "Forecast-2" := by decide
    simp only [generate_forecast, wk10_rows, Bool.not_true, if_false]
    norm_num [runStates, forecastStep, stepPred, stepFeatures, c2Model, correctionValue,
      histStd, histTrend, npStd, npVar, npMean, lastN, round2, pyRound, hlbl1, hlbl2,
      List.map_replicate, List.drop_replicate, List.sum_replicate, List.getLast?,
      List.replicate, habs]

/-! ## C9: scores are descending in every returned list -/

theorem enrich_sims_sublist (metadata : List (String × MetaRecord)) (recs : List RawRec) :
    ((enrich_recommendations metadata recs).map (fun r => r.similarity)).Sublist
      (recs.map (fun r => r.similarity)) := by
  unfold enrich_recommendations
  rw [List.map_map]
  simp only [Function.comp_def]
  exact List.Sublist.map _ (List.filter_sublist _)

theorem collab_scores_desc (S : RecService)
    (hknn : ∀ q k, ((S.kneighbors q k).map (fun dj => dj.1)).Pairwise (fun a b : ℚ => a ≤ b))
    (asin : String) (n : ℕ) :
    ((get_collaborative_recommendations S asin n).map (fun r => r.similarity)).Pairwise
      (fun a b : ℚ => b ≤ a) := by
  unfold get_collaborative_recommendations
  split
  · simp
  · split
    · simp
    · rename_i pidx _
      apply List.Pairwise.sublist (enrich_sims_sublist S.metadata _)
      rw [List.map_map, List.pairwise_map]
      have h0 : (S.kneighbors pidx (n + 1)).Pairwise (fun x y => x.1 ≤ y.1) := by
        have := hknn pidx (n + 1)
        rwa [List.pairwise_map] at this
      have h1 : ((S.kneighbors pidx (n + 1)).drop 1).Pairwise (fun x y => x.1 ≤ y.1) :=
        h0.sublist (List.drop_sublist 1 _)
      exact h1.imp (fun hab => round3_mono (by linarith))

theorem argsortDesc_pairwise (xs : List ℚ) :
    (argsortDesc xs).Pairwise (fun i j => xs.getD j 0 ≤ xs.getD i 0) := by
  unfold argsortDesc
  rw [List.pairwise_reverse]
  exact List.sorted_insertionSort (simIdxLe xs) (List.range xs.length)

theorem content_scores_desc (S : RecService) (asin : String) (n : ℕ) :
    ((get_content_recommendations S asin n).map (fun r => r.similarity)).Pairwise
      (fun a b : ℚ => b ≤ a) := by
  unfold get_content_recommendations
  split
  · simp
  · split
    · simp
    · rename_i idx _
      apply List.Pairwise.sublist (enrich_sims_sublist S.metadata _)
      rw [List.map_map, List.pairwise_map]
      have h1 : (((argsortDesc (S.contentSims idx)).drop 1).take n).Pairwise
          (fun i j => (S.contentSims idx).getD j 0 ≤ (S.contentSims idx).getD i 0) :=
        (argsortDesc_pairwise (S.contentSims idx)).sublist
          ((List.take_sublist _ _).trans (List.drop_sublist 1 _))
      exact h1.imp (fun hab => round3_mono hab)

theorem hybrid_scores_desc (S : RecService)
    (hknn : ∀ q k, ((S.kneighbors q k).map (fun dj => dj.1)).Pairwise (fun a b : ℚ => a ≤ b))
    (asin : String) (n : ℕ) (w : ℚ) :
    ((get_hybrid_recommendations S asin n w).map HEntry.hscore).Pairwise
      (fun a b : ℚ => b ≤ a) := by
  unfold get_hybrid_recommendations hybridCombine
  split
  · simp
  · split
    · rw [List.map_map]
      simp only [Function.comp_def, HEntry.hscore]
      exact (content_scores_desc S asin (n * 2)).sublist
        (List.Sublist.map _ (List.take_sublist _ _))
    · split
      · rw [List.map_map]
        simp only [Function.comp_def, HEntry.hscore]
        exact (collab_scores_desc S hknn asin (n * 2)).sublist
          (List.Sublist.map _ (List.take_sublist _ _))
      · rw [List.map_map]
        simp only [Function.comp_def, HEntry.hscore]
        rw [List.pairwise_map]
        have hsorted := List.sorted_insertionSort scoreGe
          (hybridMaps (get_collaborative_recommendations S asin (n * 2))
            (get_content_recommendations S asin (n * 2)) w).1
        refine (List.Pairwise.sublist ?_ hsorted).imp (fun hab => round3_mono hab)
        exact (List.filter_sublist _).trans (List.take_sublist _ _)

/-- C9 (confirmed): in every list returned by any of the three recommenders
the ranking scores appear in descending order, also after enrichment removes
candidates; for the collaborative (and hence hybrid) case this relies on the
nearest-neighbor query returning its distances in ascending order, which is
the contract of the external index. -/
theorem returned_scores_descending (S : RecService)
    (hknn : ∀ q k, ((S.kneighbors q k).map (fun dj => dj.1)).Pairwise (fun a b : ℚ => a ≤ b))
    (asin : String) (n : ℕ) (w : ℚ) :
    ((get_collaborative_recommendations S asin n).map (fun r => r.similarity)).Pairwise
      (fun a b : ℚ => b ≤ a) ∧
    ((get_content_recommendations S asin n).map (fun r => r.similarity)).Pairwise
      (fun a b : ℚ => b ≤ a) ∧
    ((get_hybrid_recommendations S asin n w).map HEntry.hscore).Pairwise
      (fun a b : ℚ => b ≤ a) :=
  ⟨collab_scores_desc S hknn asin n, content_scores_desc S asin n,
   hybrid_scores_desc S hknn asin n w⟩

/-- A small concrete service used by witnesses: two content products with
identical rows for the "A"/"B" pair, plus a displayable metadata record. -/
def imgMeta : MetaRecord :=
  { title := some "Alpha", imageURLHighRes := some [PyStr.str "http://img/a.jpg"] }

/-- A service whose content matrix has two identical rows (cosine
similarity exactly 1 between products "A" and "B"). -/
def tieService : RecService :=
  { hasKnn := false, hasItemUser := false, hasTfidf := true, hasMappings := true,
    product_to_idx := [], idx_to_product := [],
    cb_product_to_idx := [("A", 0), ("B", 1)],
    cb_idx_to_product := [(0, "A"), (1, "B")],
    kneighbors := fun _ _ => [], contentSims := fun _ => [1, 1],
    metadata := [("A", imgMeta), ("B", imgMeta)] }

/-- Witness for `returned_scores_descending` on a concrete service. -/
theorem returned_scores_descending_witness :
    ((get_content_recommendations tieService "A" 2).map (fun r => r.similarity)).Pairwise
      (fun a b : ℚ => b ≤ a) :=
  (returned_scores_descending tieService (by intro q k; simp [tieService]) "A" 2 1).2.1

/-! ## C1: self-exclusion of the recommenders -/

theorem lookup_eq_some_mem {α β : Type} [BEq α] [LawfulBEq α] (l : List (α × β)) (k : α)
    (v : β) (h : l.lookup k = some v) : (k, v) ∈ l := by
  induction l with
  | nil => simp [List.lookup] at h
  | cons p t ih =>
      rcases p with ⟨pk, pv⟩
      rw [List.lookup_cons] at h
      by_cases hk : k == pk
      · rw [hk] at h
        simp only [Option.some.injEq] at h
        rw [← h, show k = pk from eq_of_beq hk]
        exact List.mem_cons_self _ _
      · rw [Bool.not_eq_true] at hk
        rw [hk] at h
        exact List.mem_cons_of_mem _ (ih h)

theorem mem_enrich_asin (metadata : List (String × MetaRecord)) (recs : List RawRec)
    (er : EnrichedRec) (h : er ∈ enrich_recommendations metadata recs) :
    er.asin ∈ recs.map (fun r => r.asin) := by
  unfold enrich_recommendations at h
  rcases List.mem_map.mp h with ⟨r0, hr0, rfl⟩
  exact List.mem_map_of_mem _ (List.mem_of_mem_filter hr0)

theorem argsortDesc_strict_max (xs : List ℚ) (q : ℕ) (hq : q < xs.length)
    (hmax : ∀ j < xs.length, j ≠ q → xs.getD j 0 < xs.getD q 0) :
    ∀ j ∈ (argsortDesc xs).drop 1, j ≠ q ∧ j < xs.length := by
  have hperm := List.perm_insertionSort (simIdxLe xs) (List.range xs.length)
  set L := List.insertionSort (simIdxLe xs) (List.range xs.length) with hLdef
  have hnd : L.Nodup := hperm.nodup_iff.mpr (List.nodup_range xs.length)
  have hmemL : ∀ j ∈ L, j < xs.length := fun j hj => List.mem_range.mp (hperm.mem_iff.mp hj)
  have hqL : q ∈ L := hperm.mem_iff.mpr (List.mem_range.mpr hq)
  have hsorted : L.Pairwise (simIdxLe xs) :=
    List.sorted_insertionSort (simIdxLe xs) (List.range xs.length)
  have hne : L ≠ [] := List.ne_nil_of_mem hqL
  have hsplit : L = L.dropLast ++ [L.getLast hne] := (List.dropLast_append_getLast hne).symm
  have hlast : L.getLast hne = q := by
    by_contra hne2
    have hmemq : q ∈ L.dropLast := by
      have h0 := hqL
      rw [hsplit] at h0
      rcases List.mem_append.mp h0 with h1 | h1
      · exact h1
      · exact absurd (List.mem_singleton.mp h1).symm hne2
    have hrel : simIdxLe xs q (L.getLast hne) := by
      have hs2 := hsorted
      rw [hsplit] at hs2
      exact (List.pairwise_append.mp hs2).2.2 q hmemq _ (List.mem_singleton_self _)
    have hlt := hmax (L.getLast hne) (hmemL _ (List.getLast_mem hne)) hne2
    have : xs.getD q 0 ≤ xs.getD (L.getLast hne) 0 := hrel
    linarith
  intro j hj
  unfold argsortDesc at hj
  rw [← hLdef] at hj
  have hrev : L.reverse = q :: L.dropLast.reverse := by
    conv_lhs => rw [hsplit]
    rw [List.reverse_append, List.reverse_singleton, hlast]
    rfl
  rw [hrev] at hj
  simp only [List.drop_one, List.tail_cons] at hj
  have hjd : j ∈ L.dropLast := List.mem_reverse.mp hj
  have hjL : j ∈ L := by
    rw [hsplit]
    exact List.mem_append_left _ hjd
  refine ⟨?_, hmemL j hjL⟩
  intro hjq
  have hnd2 := hnd
  rw [hsplit, List.nodup_append] at hnd2
  exact hnd2.2.2 hjd (List.mem_singleton.mpr (hjq.trans hlast.symm))

/-- C1 (corrected): each recommender excludes the queried product provided
the query is the strict top of its own ranking — for the collaborative
recommender, the neighbor query returns no occurrence of the query row
beyond position 0 and the inverse mapping sends no other row to the queried
ID; for the content recommender, no other row ties the query row's
similarity (the original claim's "even under an exact 1.0 tie" fails, see
the counterexample). -/
theorem recommender_self_exclusion (S : RecService) (asin : String) (n : ℕ)
    (hne : asin ≠ "") :
    (∀ pidx, S.product_to_idx.lookup asin = some pidx →
      (∀ dj ∈ (S.kneighbors pidx (n + 1)).drop 1, dj.2 ≠ pidx) →
      (∀ kv ∈ S.idx_to_product, kv.2 = asin → kv.1 = pidx) →
      asin ∉ (get_collaborative_recommendations S asin n).map (fun r => r.asin)) ∧
    (∀ qidx, S.cb_product_to_idx.lookup asin = some qidx →
      qidx < (S.contentSims qidx).length →
      (∀ j < (S.contentSims qidx).length, j ≠ qidx →
        (S.contentSims qidx).getD j 0 < (S.contentSims qidx).getD qidx 0) →
      (∀ kv ∈ S.cb_idx_to_product, kv.2 = asin → kv.1 = qidx) →
      asin ∉ (get_content_recommendations S asin n).map (fun r => r.asin)) := by
  constructor
  · intro pidx hlk hself hinv hmem
    unfold get_collaborative_recommendations at hmem
    split at hmem
    · simp at hmem
    · split at hmem
      · simp at hmem
      · rename_i pidx' heq
        rw [hlk] at heq
        injection heq with heq2
        subst heq2
        rcases List.mem_map.mp hmem with ⟨er, her, hasin⟩
        have h2 := mem_enrich_asin _ _ er her
        rw [hasin] at h2
        simp only [List.map_map, Function.comp_def] at h2
        rcases List.mem_map.mp h2 with ⟨dj, hdj, heq3⟩
        unfold getAsin at heq3
        cases hlkup : S.idx_to_product.lookup dj.2 with
        | none =>
            rw [hlkup] at heq3
            exact hne heq3.symm
        | some a =>
            rw [hlkup] at heq3
            simp only [Option.getD_some] at heq3
            have hmem2 := lookup_eq_some_mem _ _ _ hlkup
            exact hself dj hdj (hinv (dj.2, a) hmem2 heq3)
  · intro qidx hlk hq hmax hinv hmem
    unfold get_content_recommendations at hmem
    split at hmem
    · simp at hmem
    · split at hmem
      · simp at hmem
      · rename_i qidx' heq
        rw [hlk] at heq
        injection heq with heq2
        subst heq2
        rcases List.mem_map.mp hmem with ⟨er, her, hasin⟩
        have h2 := mem_enrich_asin _ _ er her
        rw [hasin] at h2
        simp only [List.map_map, Function.comp_def] at h2
        rcases List.mem_map.mp h2 with ⟨j, hj, heq3⟩
        have hj2 : j ∈ (argsortDesc (S.contentSims qidx)).drop 1 :=
          List.mem_of_mem_take hj
        have hjq := argsortDesc_strict_max (S.contentSims qidx) qidx hq hmax j hj2
        unfold getAsin at heq3
        cases hlkup : S.cb_idx_to_product.lookup j with
        | none =>
            rw [hlkup] at heq3
            exact hne heq3.symm
        | some a =>
            rw [hlkup] at heq3
            simp only [Option.getD_some] at heq3
            have hmem2 := lookup_eq_some_mem _ _ _ hlkup
            exact hjq.1 (hinv (j, a) hmem2 heq3)

/-- A service like `tieService` but with a strict similarity maximum at the
query row. -/
def distinctSimService : RecService :=
  { hasKnn := true, hasItemUser := true, hasTfidf := true, hasMappings := true,
    product_to_idx := [("A", 0)], idx_to_product := [(0, "A")],
    cb_product_to_idx := [("A", 0), ("B", 1)], cb_idx_to_product := [(0, "A"), (1, "B")],
    kneighbors := fun _ _ => [], contentSims := fun _ => [1, 1/2],
    metadata := [("A", imgMeta), ("B", imgMeta)] }

/-- Witness for `recommender_self_exclusion` on a concrete service. -/
theorem recommender_self_exclusion_witness :
    "A" ∉ (get_collaborative_recommendations distinctSimService "A" 1).map (fun r => r.asin) ∧
    "A" ∉ (get_content_recommendations distinctSimService "A" 1).map (fun r => r.asin) := by
  have h := recommender_self_exclusion distinctSimService "A" 1 (by decide)
  constructor
  · exact h.1 0 (by decide) (by intro dj hdj; simp [distinctSimService] at hdj) (by decide)
  · refine h.2 0 (by decide) (by simp [distinctSimService]) ?_ (by decide)
    intro j hjlen hjne
    have hj2 : j < 2 := by simpa [distinctSimService] using hjlen
    interval_cases j
    · exact absurd rfl hjne
    · norm_num [distinctSimService]

/-- C1 counterexample: product "B" has a content vector identical to the
query "A" (cosine similarity exactly 1.0).  Descending by-rank exclusion
then drops "B" (ordered first among the tied pair) instead of the query,
and the returned candidate list is exactly `["A"]` — the queried product's
own ID. -/
theorem content_tie_includes_query :
    (get_content_recommendations tieService "A" 1).map (fun r => r.asin) = ["A"] ∧
    "A" ∈ (get_content_recommendations tieService "A" 1).map (fun r => r.asin) := by
  have hrange : List.range 2 = [0, 1] := by decide
  have hlkA : List.lookup "A" [("A", (0 : ℕ)), ("B", 1)] = some 0 := by decide
  have hlk0 : List.lookup (0 : ℕ) [(0, "A"), (1, "B")] = some "A" := by decide
  have hlkMeta : List.lookup "A" [("A", imgMeta), ("B", imgMeta)] = some imgMeta := by decide
  have hdet : get_product_details [("A", imgMeta), ("B", imgMeta)] "A"
      = { asin := "A", title := "Alpha", description := "",
          image_url := some "http://img/a.jpg", price := Option.none, rating := Option.none,
          rating_count := Option.none, store := Option.none, categories := [] } := by
    unfold get_product_details
    rw [hlkMeta]
    norm_num [imgMeta, resolveImage, resolveDescription, truthyS, parse_price]
  have hargs : argsortDesc [(1 : ℚ), 1] = [1, 0] := by
    unfold argsortDesc
    norm_num [hrange, List.insertionSort, List.orderedInsert, simIdxLe]
  have hmain : (get_content_recommendations tieService "A" 1).map (fun r => r.asin)
      = ["A"] := by
    unfold get_content_recommendations
    norm_num [tieService, hlkA, hargs, getAsin, hlk0, round3, pyRound]
    unfold enrich_recommendations
    have himg : ("http://img/a.jpg".isEmpty) = false := by decide
    norm_num [hdet, truthyS, List.filter, himg]
  exact ⟨hmain, by rw [hmain]; exact List.mem_singleton_self _⟩

/-! ## C5: hybrid with cfWeight = 1 versus pure collaborative -/

theorem dictSet_of_absent {α : Type} (d : List (String × α)) (k : String) (v : α)
    (h : d.lookup k = Option.none) : dictSet d k v = d ++ [(k, v)] := by
  unfold dictSet
  rw [h]
  rfl

theorem cfFold_acc (w : ℚ) (cf : List EnrichedRec) :
    ∀ (acc1 : List (String × ℚ)) (acc2 : List (String × EnrichedRec)),
      (∀ r ∈ cf, acc1.lookup r.asin = Option.none) →
      (∀ r ∈ cf, acc2.lookup r.asin = Option.none) →
      (cf.map (fun r => r.asin)).Nodup →
      cf.foldl (cfStep w) (acc1, acc2)
        = (acc1 ++ cf.map (fun r => (r.asin, r.similarity * w)),
           acc2 ++ cf.map (fun r => (r.asin, r))) := by
  induction cf with
  | nil => intro acc1 acc2 _ _ _; simp
  | cons r t ih =>
      intro acc1 acc2 h1 h2 hnd
      simp only [List.map_cons, List.nodup_cons] at hnd
      simp only [List.foldl_cons]
      have e0 : cfStep w (acc1, acc2) r
          = (acc1 ++ [(r.asin, r.similarity * w)], acc2 ++ [(r.asin, r)]) := by
        unfold cfStep
        rw [dictSet_of_absent _ _ _ (h1 r (List.mem_cons_self r t)),
          dictSet_of_absent _ _ _ (h2 r (List.mem_cons_self r t))]
      rw [e0]
      have hne : ∀ x ∈ t, x.asin ≠ r.asin := by
        intro x hx he
        exact hnd.1 (he ▸ List.mem_map_of_mem _ hx)
      rw [ih (acc1 ++ [(r.asin, r.similarity * w)]) (acc2 ++ [(r.asin, r)])
        (fun x hx => (lookup_append_of_ne acc1 r.asin x.asin _ (hne x hx)).trans
          (h1 x (List.mem_cons_of_mem _ hx)))
        (fun x hx => (lookup_append_of_ne acc2 r.asin x.asin _ (hne x hx)).trans
          (h2 x (List.mem_cons_of_mem _ hx)))
        hnd.2]
      simp [List.append_assoc]

theorem cbFold_zero (cb : List EnrichedRec) :
    ∀ (st : List (String × ℚ) × List (String × EnrichedRec)) (base : List (String × ℚ))
      (zs : List (String × ℚ)),
      st.1 = base ++ zs → (∀ p ∈ zs, p.2 = 0) →
      (∀ x : String, (st.1.lookup x).isSome = (st.2.lookup x).isSome) →
      ∃ zs2, (cb.foldl (cbStep 0) st).1 = base ++ zs2 ∧ (∀ p ∈ zs2, p.2 = 0) ∧
        (∀ x : String, ((cb.foldl (cbStep 0) st).1.lookup x).isSome
          = ((cb.foldl (cbStep 0) st).2.lookup x).isSome) ∧
        (∀ (a : String) (v : EnrichedRec), st.2.lookup a = some v →
          (cb.foldl (cbStep 0) st).2.lookup a = some v) := by
  induction cb with
  | nil =>
      intro st base zs h1 h2 h3
      exact ⟨zs, h1, h2, h3, fun a v hv => hv⟩
  | cons r t ih =>
      intro st base zs h1 h2 h3
      simp only [List.foldl_cons]
      by_cases hc : (st.1.lookup r.asin).isSome
      · have hstep : cbStep 0 st r = st := by
          unfold cbStep
          rw [if_pos hc, mul_zero, dictAdd_zero]
        rw [hstep]
        exact ih st base zs h1 h2 h3
      · have hnone : st.1.lookup r.asin = Option.none := Option.not_isSome_iff_eq_none.mp hc
        have hdnone : st.2.lookup r.asin = Option.none := by
          have h4 := h3 r.asin
          rw [hnone] at h4
          exact Option.not_isSome_iff_eq_none.mp (by rw [← h4]; simp)
        have hstep : cbStep 0 st r
            = (st.1 ++ [(r.asin, r.similarity * 0)], st.2 ++ [(r.asin, r)]) := by
          unfold cbStep
          rw [if_neg hc, dictSet_of_absent _ _ _ hnone, dictSet_of_absent _ _ _ hdnone]
        rw [hstep]
        obtain ⟨zs2, g1, g2, g3, g4⟩ := ih
          (st.1 ++ [(r.asin, r.similarity * 0)], st.2 ++ [(r.asin, r)])
          base (zs ++ [(r.asin, r.similarity * 0)])
          (by rw [show (st.1 ++ [(r.asin, r.similarity * 0)], st.2 ++ [(r.asin, r)]).1
                = st.1 ++ [(r.asin, r.similarity * 0)] from rfl, h1, List.append_assoc])
          (by intro p hp
              rcases List.mem_append.mp hp with hp | hp
              · exact h2 p hp
              · rw [List.mem_singleton.mp hp]
                exact mul_zero _)
          (by intro x
              by_cases hx : x = r.asin
              · rw [show (st.1 ++ [(r.asin, r.similarity * 0)], st.2 ++ [(r.asin, r)]).1
                    = st.1 ++ [(r.asin, r.similarity * 0)] from rfl,
                  show (st.1 ++ [(r.asin, r.similarity * 0)], st.2 ++ [(r.asin, r)]).2
                    = st.2 ++ [(r.asin, r)] from rfl, hx,
                  lookup_append_single_self _ _ _ hnone,
                  lookup_append_single_self _ _ _ hdnone]
                rfl
              · rw [show (st.1 ++ [(r.asin, r.similarity * 0)], st.2 ++ [(r.asin, r)]).1
                    = st.1 ++ [(r.asin, r.similarity * 0)] from rfl,
                  show (st.1 ++ [(r.asin, r.similarity * 0)], st.2 ++ [(r.asin, r)]).2
                    = st.2 ++ [(r.asin, r)] from rfl,
                  lookup_append_of_ne _ _ _ _ hx, lookup_append_of_ne _ _ _ _ hx]
                exact h3 x)
        refine ⟨zs2, g1, g2, g3, ?_⟩
        intro a v hv
        apply g4
        by_cases ha : a = r.asin
        · subst ha
          rw [hdnone] at hv
          cases hv
        · rw [show (st.1 ++ [(r.asin, r.similarity * 0)], st.2 ++ [(r.asin, r)]).2
              = st.2 ++ [(r.asin, r)] from rfl, lookup_append_of_ne _ _ _ _ ha]
          exact hv

theorem lookup_pairs_isSome {β γ : Type} (l : List EnrichedRec) (f : EnrichedRec → β)
    (g : EnrichedRec → γ) (x : String) :
    ((l.map (fun r => (r.asin, f r))).lookup x).isSome
      = ((l.map (fun r => (r.asin, g r))).lookup x).isSome := by
  induction l with
  | nil => rfl
  | cons r t ih =>
      simp only [List.map_cons, List.lookup_cons]
      cases hbe : x == r.asin
      · exact ih
      · rfl

/-- C5 (corrected): with `cfWeight = 1` the hybrid ranking returns exactly
the collaborative candidates truncated to `n` — provided the collaborative
list has at least `n` members, pairwise-distinct ASINs, non-negative
descending similarities, and displayable images (all true of enriched
collaborative output); when the collaborative list is empty or shorter than
`n`, the hybrid list can differ (see the counterexample). -/
theorem hybrid_weight_one (cf_recs cb_recs : List EnrichedRec) (n : ℕ)
    (hnd : (cf_recs.map (fun r => r.asin)).Nodup)
    (hdesc : (cf_recs.map (fun r => r.similarity)).Pairwise (fun a b : ℚ => b ≤ a))
    (hpos : ∀ r ∈ cf_recs, 0 ≤ r.similarity)
    (himg : ∀ r ∈ cf_recs, truthyS r.image_url = true)
    (hlen : n ≤ cf_recs.length) :
    (hybridCombine cf_recs cb_recs n 1).map HEntry.hasin
      = (cf_recs.take n).map (fun r => r.asin) := by
  unfold hybridCombine
  split
  · rename_i hee
    rw [Bool.and_eq_true] at hee
    rw [List.isEmpty_iff.mp hee.1]
    simp
  · split
    · rename_i hcfe
      rw [List.isEmpty_iff.mp hcfe] at hlen ⊢
      simp only [List.length_nil, Nat.le_zero] at hlen
      subst hlen
      simp
    · split
      · rw [List.map_map]
        exact List.map_congr_left (fun r _ => rfl)
      · unfold hybridMaps
        rw [show (1 : ℚ) - 1 = 0 from by norm_num]
        have hcffold := cfFold_acc 1 cf_recs [] [] (by simp) (by simp) hnd
        rw [hcffold, List.nil_append, List.nil_append]
        obtain ⟨zs2, g1, g2, g3, g4⟩ := cbFold_zero cb_recs
          (cf_recs.map (fun r => (r.asin, r.similarity * 1)),
           cf_recs.map (fun r => (r.asin, r)))
          (cf_recs.map (fun r => (r.asin, r.similarity * 1))) []
          (by simp) (by simp)
          (fun x => lookup_pairs_isSome cf_recs (fun r => r.similarity * 1) (fun r => r) x)
        dsimp only
        rw [g1]
        have hsorted : (cf_recs.map (fun r : EnrichedRec => (r.asin, r.similarity * 1))
            ++ zs2).Pairwise scoreGe := by
          rw [List.pairwise_append]
          refine ⟨?_, ?_, ?_⟩
          · rw [List.pairwise_map]
            have hd2 := (List.pairwise_map.mp hdesc)
            exact hd2.imp (fun hab => by
              show scoreGe _ _
              unfold scoreGe
              simpa [mul_one] using hab)
          · exact List.pairwise_of_forall_mem_list (fun a ha b hb => by
              show scoreGe a b
              unfold scoreGe
              rw [g2 a ha, g2 b hb])
          · intro a ha b hb
            rcases List.mem_map.mp ha with ⟨r, hr, rfl⟩
            show scoreGe _ b
            unfold scoreGe
            rw [g2 b hb]
            simpa [mul_one] using hpos r hr
        rw [List.Sorted.insertionSort_eq hsorted,
          List.take_append_of_le_length (by simpa using hlen), ← List.map_take]
        have hallkept : ∀ p ∈ (cf_recs.take n).map
            (fun r : EnrichedRec => (r.asin, r.similarity * 1)),
            truthyS (((((cb_recs.foldl (cbStep 0)
              (cf_recs.map (fun r => (r.asin, r.similarity * 1)),
               cf_recs.map (fun r => (r.asin, r)))).2).lookup p.1).getD
                default).image_url) = true := by
          intro p hp
          rcases List.mem_map.mp hp with ⟨r, hr, rfl⟩
          have hr2 : r ∈ cf_recs := List.mem_of_mem_take hr
          have hdata0 : (cf_recs.map (fun r => (r.asin, r))).lookup r.asin = some r := by
            have := (cfFold_lookup_self 1 cf_recs r hr2 hnd ([], [])).2
            rw [hcffold, List.nil_append] at this
            exact this
          have hdataF := g4 r.asin r hdata0
          rw [show ((r.asin, r.similarity * 1) : String × ℚ).1 = r.asin from rfl, hdataF]
          exact himg r hr2
        rw [List.filter_eq_self.mpr hallkept, List.map_map, List.map_map]
        exact List.map_congr_left (fun r _ => rfl)

/-- Witness for `hybrid_weight_one` on a concrete collaborative list. -/
theorem hybrid_weight_one_witness :
    (hybridCombine [wrec "A" 1 "collaborative"] [] 1 1).map HEntry.hasin
      = ([wrec "A" 1 "collaborative"].take 1).map (fun r => r.asin) :=
  hybrid_weight_one [wrec "A" 1 "collaborative"] [] 1
    (by decide)
    (by simp)
    (by intro r hr
        rw [List.mem_singleton.mp hr]
        norm_num [wrec])
    (by intro r hr
        rw [List.mem_singleton.mp hr]
        decide)
    (by norm_num)

/-- C5 counterexample: for a product absent from the collaborative index
(its neighbor list is empty) but present in the content index, the hybrid
call with `cfWeight = 1` falls back to the content list and returns "B",
while pure collaborative recommendations truncated to 1 are empty — the
ranked sets differ. -/
theorem hybrid_weight_one_counterexample :
    (get_hybrid_recommendations distinctSimService "A" 1 1).map HEntry.hasin = ["B"] ∧
    (get_collaborative_recommendations distinctSimService "A" 1).map (fun r => r.asin)
      = ([] : List String) ∧
    (["B"] : List String) ≠ ([] : List String) := by
  have hlkA1 : List.lookup "A" [("A", (0 : ℕ))] = some 0 := by decide
  have hcollab : ∀ k : ℕ, get_collaborative_recommendations distinctSimService "A" k = [] := by
    intro k
    unfold get_collaborative_recommendations
    norm_num [distinctSimService, RecService.is_ready, hlkA1, enrich_recommendations]
  have hrange : List.range 2 = [0, 1] := by decide
  have hlkA : List.lookup "A" [("A", (0 : ℕ)), ("B", 1)] = some 0 := by decide
  have hlk1 : List.lookup (1 : ℕ) [(0, "A"), (1, "B")] = some "B" := by decide
  have hlkMetaB : List.lookup "B" [("A", imgMeta), ("B", imgMeta)] = some imgMeta := by decide
  have hdetB : get_product_details [("A", imgMeta), ("B", imgMeta)] "B"
      = { asin := "B", title := "Alpha", description := "",
          image_url := some "http://img/a.jpg", price := Option.none, rating := Option.none,
          rating_count := Option.none, store := Option.none, categories := [] } := by
    unfold get_product_details
    rw [hlkMetaB]
    norm_num [imgMeta, resolveImage, resolveDescription, truthyS, parse_price]
  have hargs2 : argsortDesc [(1 : ℚ), 1/2] = [0, 1] := by
    unfold argsortDesc
    norm_num [hrange, List.insertionSort, List.orderedInsert, simIdxLe]
  have hcontent : get_content_recommendations distinctSimService "A" 2
      = [{ asin := "B", similarity := 1/2, method := "content", title := "Alpha",
           description := "", image_url := some "http://img/a.jpg", price := Option.none,
           rating := Option.none, rating_count := Option.none, store := Option.none,
           categories := [] }] := by
    unfold get_content_recommendations
    norm_num [distinctSimService, hlkA, hargs2, getAsin, hlk1, round3, pyRound]
    unfold enrich_recommendations
    have himg2 : ("http://img/a.jpg".isEmpty) = false := by decide
    norm_num [hdetB, truthyS, List.filter, himg2]
  constructor
  · unfold get_hybrid_recommendations
    rw [show (1 : ℕ) * 2 = 2 from rfl, hcollab 2, hcontent]
    norm_num [hybridCombine, HEntry.hasin]
  · exact ⟨by rw [hcollab 1]; rfl, by decide⟩
